import Mathlib

/-!
Verification of the autonat-v2 request/response codec
(`protocols/autonatv2/src/request_response.rs`).

The development shallowly embeds the wire codec: protobuf base primitives
(LEB128 varints, little-endian fixed64 words, length-delimited payloads),
the generated message readers/writers for the `structs.proto` schema, and
the typed `Request` / `Response` / `DialBack` layer with its
`from_bytes` / `into_bytes` functions, the padding generator, and the
length-prefixed framed reader.  Bytes are modelled as `List Nat`
(the encoders only emit values below 256), machine integers as `Nat`
with explicit reductions modulo `2 ^ 32` / `2 ^ 64` where the source casts.
-/

namespace AutonatV2

deriving instance DecidableEq for Except

/-- Error taxonomy of the decoder.  The source reports every failure as an
`io::Error` of kind `InvalidData`; the four construction sites are
distinguished here exactly as the spec's taxonomy does: a structural parse
failure of the schema reader (`Malformed`), a populated one-of variant other
than the expected ones (`UnexpectedVariant`), a `check_existence!` failure
(`MissingField` with the field's name), and a multiaddress that fails to
parse (`InvalidAddress`). -/
inductive DecodeError where
  | Malformed
  | UnexpectedVariant
  | MissingField (field : String)
  | InvalidAddress
deriving DecidableEq

/-- LEB128 varint encoder, structural on a fuel argument.  With fuel at least
the value's base-128 digit count it emits the little-endian base-128 digits,
all but the last with the continuation bit 128 set. -/
def encodeVarintGo : Nat → Nat → List Nat
  | 0, n => [n % 128]
  | fuel + 1, n => if n < 128 then [n] else (n % 128 + 128) :: encodeVarintGo fuel (n / 128)

/-- LEB128 varint encoder (`quick_protobuf`'s `write_varint`); the fuel `n`
always suffices since a value is never smaller than its digit count. -/
def encodeVarint (n : Nat) : List Nat :=
  encodeVarintGo n n

/-- LEB128 varint reader (`quick_protobuf`'s `read_varint64`), which accepts
at most 10 bytes; the fuel argument is that byte budget. -/
def readVarintGo : Nat → List Nat → Except DecodeError (Nat × List Nat)
  | 0, _ => .error .Malformed
  | _ + 1, [] => .error .Malformed
  | fuel + 1, b :: rest =>
    if b < 128 then .ok (b, rest)
    else
      match readVarintGo fuel rest with
      | .error e => .error e
      | .ok (v, r) => .ok (b % 128 + 128 * v, r)

/-- Varint reader entry point with `quick_protobuf`'s 10-byte budget. -/
def readVarint (bs : List Nat) : Except DecodeError (Nat × List Nat) :=
  readVarintGo 10 bs

/-- Little-endian fixed64 writer (`write_fixed64`); the value is a `u64`,
hence the reduction modulo `2 ^ 64`. -/
def encodeFixed64 (n : Nat) : List Nat :=
  [n % 2 ^ 64 % 256, n % 2 ^ 64 / 256 % 256, n % 2 ^ 64 / 256 ^ 2 % 256,
   n % 2 ^ 64 / 256 ^ 3 % 256, n % 2 ^ 64 / 256 ^ 4 % 256, n % 2 ^ 64 / 256 ^ 5 % 256,
   n % 2 ^ 64 / 256 ^ 6 % 256, n % 2 ^ 64 / 256 ^ 7 % 256]

/-- Little-endian fixed64 reader (`read_fixed64`): consumes exactly 8 bytes. -/
def readFixed64 : List Nat → Except DecodeError (Nat × List Nat)
  | b0 :: b1 :: b2 :: b3 :: b4 :: b5 :: b6 :: b7 :: rest =>
    .ok (b0 + 256 * (b1 + 256 * (b2 + 256 * (b3 + 256 * (b4 + 256 * (b5 + 256 * (b6 + 256 * b7)))))),
      rest)
  | _ => .error .Malformed

/-- Length-delimited payload reader (`read_bytes` / `read_message` framing):
a varint length followed by exactly that many bytes. -/
def readLenDelim (bs : List Nat) : Except DecodeError (List Nat × List Nat) :=
  match readVarint bs with
  | .error e => .error e
  | .ok (len, rest) =>
    if len ≤ rest.length then .ok (rest.take len, rest.drop len) else .error .Malformed

/-- Unknown-field skipper (`read_unknown`), dispatching on the wire type:
varint (0), fixed64 (1), length-delimited (2), fixed32 (5); anything else is
a structural error. -/
def skipField (wt : Nat) (bs : List Nat) : Except DecodeError (List Nat) :=
  if wt = 0 then
    match readVarint bs with
    | .error e => .error e
    | .ok (_, rest) => .ok rest
  else if wt = 1 then
    match bs with
    | _ :: _ :: _ :: _ :: _ :: _ :: _ :: _ :: rest => .ok rest
    | _ => .error .Malformed
  else if wt = 2 then
    match readLenDelim bs with
    | .error e => .error e
    | .ok (_, rest) => .ok rest
  else if wt = 5 then
    match bs with
    | _ :: _ :: _ :: _ :: rest => .ok rest
    | _ => .error .Malformed
  else .error .Malformed

/-! ### Round-trip lemmas for the primitives -/

theorem readVarintGo_encodeVarintGo :
    ∀ (ef rf n : Nat) (rest : List Nat), n < 128 ^ (ef + 1) → n < 128 ^ rf → 0 < rf →
      readVarintGo rf (encodeVarintGo ef n ++ rest) = .ok (n, rest) := by
  intro ef
  induction ef with
  | zero =>
    intro rf n rest h1 h2 hrf
    have hn : n < 128 := by simpa using h1
    obtain ⟨r, rfl⟩ : ∃ r, rf = r + 1 := ⟨rf - 1, by omega⟩
    simp [encodeVarintGo, readVarintGo, Nat.mod_eq_of_lt hn, hn]
  | succ ef ih =>
    intro rf n rest h1 h2 hrf
    obtain ⟨r, rfl⟩ : ∃ r, rf = r + 1 := ⟨rf - 1, by omega⟩
    by_cases hn : n < 128
    · simp [encodeVarintGo, readVarintGo, hn]
    · have hb : ¬ (n % 128 + 128 < 128) := by omega
      have hr : 0 < r := by
        rcases Nat.eq_zero_or_pos r with h | h
        · subst h; simp at h2; omega
        · exact h
      have hdiv1 : n / 128 < 128 ^ (ef + 1) := by
        rw [Nat.div_lt_iff_lt_mul (by norm_num : (0:Nat) < 128)]
        calc n < 128 ^ (ef + 1 + 1) := h1
        _ = 128 ^ (ef + 1) * 128 := by ring
      have hdiv2 : n / 128 < 128 ^ r := by
        rw [Nat.div_lt_iff_lt_mul (by norm_num : (0:Nat) < 128)]
        calc n < 128 ^ (r + 1) := h2
        _ = 128 ^ r * 128 := by ring
      have := ih r (n / 128) rest hdiv1 hdiv2 hr
      simp only [encodeVarintGo, hn, if_false, List.cons_append, readVarintGo, hb, this]
      have : (n % 128 + 128) % 128 + 128 * (n / 128) = n := by omega
      rw [this]

theorem readVarintGo_encodeVarint (n : Nat) (rest : List Nat) (h : n < 128 ^ 10) :
    readVarint (encodeVarint n ++ rest) = .ok (n, rest) := by
  have h1 : n < 128 ^ (n + 1) := by
    rcases Nat.eq_zero_or_pos n with h0 | h0
    · subst h0; norm_num
    · calc n < 128 ^ n := Nat.lt_pow_self (by norm_num) n
      _ ≤ 128 ^ (n + 1) := Nat.pow_le_pow_right (by norm_num) (by omega)
  exact readVarintGo_encodeVarintGo n 10 n rest h1 h (by norm_num)

theorem readVarint_cons_lt (b : Nat) (rest : List Nat) (h : b < 128) :
    readVarint (b :: rest) = .ok (b, rest) := by
  simp [readVarint, readVarintGo, h]

theorem readFixed64_encodeFixed64 (n : Nat) (rest : List Nat) :
    readFixed64 (encodeFixed64 n ++ rest) = .ok (n % 2 ^ 64, rest) := by
  have h : n % 2 ^ 64 < 2 ^ 64 := Nat.mod_lt _ (by norm_num)
  simp only [encodeFixed64, List.cons_append, List.nil_append, readFixed64]
  congr 1
  congr 1
  omega

theorem readFixed64_encodeFixed64_nil (n : Nat) :
    readFixed64 (encodeFixed64 n) = .ok (n % 2 ^ 64, []) := by
  have := readFixed64_encodeFixed64 n []
  simpa using this

theorem readLenDelim_encode (p rest : List Nat) (h : p.length < 128 ^ 10) :
    readLenDelim (encodeVarint p.length ++ (p ++ rest)) = .ok (p, rest) := by
  simp only [readLenDelim, readVarintGo_encodeVarint p.length (p ++ rest) h]
  have hle : p.length ≤ (p ++ rest).length := by simp
  simp [hle, List.take_left, List.drop_left]

theorem readLenDelim_encode_nil (p : List Nat) (h : p.length < 128 ^ 10) :
    readLenDelim (encodeVarint p.length ++ p) = .ok (p, []) := by
  have := readLenDelim_encode p [] h
  simpa using this

theorem encodeVarint_length_pos (n : Nat) : 0 < (encodeVarint n).length := by
  rcases n with _ | m
  · simp [encodeVarint, encodeVarintGo]
  · simp only [encodeVarint, encodeVarintGo]
    split <;> simp

theorem encodeVarintGo_length_le :
    ∀ (ef n k : Nat), n < 128 ^ (k + 1) → (encodeVarintGo ef n).length ≤ k + 1 := by
  intro ef
  induction ef with
  | zero => intro n k _; simp [encodeVarintGo]
  | succ ef ih =>
    intro n k h
    by_cases hn : n < 128
    · simp [encodeVarintGo, hn]
    · have hk : 0 < k := by
        rcases Nat.eq_zero_or_pos k with h0 | h0
        · subst h0; simp at h; omega
        · exact h0
      have hdiv : n / 128 < 128 ^ (k - 1 + 1) := by
        rw [Nat.div_lt_iff_lt_mul (by norm_num : (0:Nat) < 128)]
        calc n < 128 ^ (k + 1) := h
        _ = 128 ^ (k - 1 + 1) * 128 := by
          rw [← Nat.pow_succ]
          congr 1
          omega
      have := ih (n / 128) (k - 1) hdiv
      simp only [encodeVarintGo, hn, if_false, List.length_cons]
      omega

theorem encodeVarint_length_le_ten (n : Nat) (h : n < 2 ^ 64) :
    (encodeVarint n).length ≤ 10 := by
  have : n < 128 ^ (9 + 1) := by
    calc n < 2 ^ 64 := h
    _ ≤ 128 ^ 10 := by norm_num
  simpa using encodeVarintGo_length_le n n 9 this

/-! ### The generated `structs.proto` schema layer

The `crate::generated::structs` module (pb-rs output from the schema in §6 of
the spec) is not part of the given sources; readers and writers below are
modelled from the spec's wire contract: a one-of union `Message` over
`DialRequest` (field 1), `DialResponse` (2), `DialDataRequest` (3),
`DialDataResponse` (4), with the field map of §6, 64-bit nonces carried as
fixed64 words (the only layout under which the `DialBack` size ceiling of 10
bytes asserted by the source's own test can hold), and the other integer
fields as varints. -/

/-- Protocol outcome enumeration (`DialResponse.ResponseStatus`). -/
inductive ResponseStatus where
  | E_INTERNAL_ERROR
  | E_REQUEST_REJECTED
  | E_DIAL_REFUSED
  | OK
deriving DecidableEq

/-- Wire value of a `ResponseStatus`. -/
def ResponseStatus.toNat : ResponseStatus → Nat
  | .E_INTERNAL_ERROR => 0
  | .E_REQUEST_REJECTED => 100
  | .E_DIAL_REFUSED => 101
  | .OK => 200

/-- Decode a wire value into a `ResponseStatus`; unlisted values fall back to
the default (first) variant, as pb-rs generated conversions do. -/
def ResponseStatus.fromVal (n : Nat) : ResponseStatus :=
  if n = 0 then .E_INTERNAL_ERROR
  else if n = 100 then .E_REQUEST_REJECTED
  else if n = 101 then .E_DIAL_REFUSED
  else if n = 200 then .OK
  else .E_INTERNAL_ERROR

/-- Dial outcome enumeration (`DialStatus`). -/
inductive DialStatus where
  | UNUSED
  | E_DIAL_ERROR
  | E_DIAL_BACK_ERROR
  | OK
deriving DecidableEq

/-- Wire value of a `DialStatus`. -/
def DialStatus.toNat : DialStatus → Nat
  | .UNUSED => 0
  | .E_DIAL_ERROR => 100
  | .E_DIAL_BACK_ERROR => 101
  | .OK => 200

/-- Decode a wire value into a `DialStatus`; unlisted values fall back to the
default (first) variant. -/
def DialStatus.fromVal (n : Nat) : DialStatus :=
  if n = 0 then .UNUSED
  else if n = 100 then .E_DIAL_ERROR
  else if n = 101 then .E_DIAL_BACK_ERROR
  else if n = 200 then .OK
  else .UNUSED

theorem responseStatus_fromVal_toNat (s : ResponseStatus) : ResponseStatus.fromVal s.toNat = s := by
  cases s <;> rfl

theorem dialStatus_fromVal_toNat (s : DialStatus) : DialStatus.fromVal s.toNat = s := by
  cases s <;> rfl

theorem responseStatus_toNat_lt (s : ResponseStatus) : s.toNat < 2 ^ 32 := by
  cases s <;> simp [ResponseStatus.toNat]

theorem dialStatus_toNat_lt (s : DialStatus) : s.toNat < 2 ^ 32 := by
  cases s <;> simp [DialStatus.toNat]

/-- Wire-level `DialRequest`: repeated bytes `addrs` (field 1), optional
fixed64 `nonce` (field 2). -/
structure ProtoDialRequest where
  addrs : List (List Nat)
  nonce : Option Nat
deriving DecidableEq

/-- Wire-level `DialDataRequest`: optional uint32 `addrIdx` (field 1),
optional uint64 `numBytes` (field 2). -/
structure ProtoDialDataRequest where
  addrIdx : Option Nat
  numBytes : Option Nat
deriving DecidableEq

/-- Wire-level `DialResponse`: optional enum `status` (field 1), optional
uint32 `addrIdx` (field 2), optional enum `dialStatus` (field 3). -/
structure ProtoDialResponse where
  status : Option ResponseStatus
  addrIdx : Option Nat
  dialStatus : Option DialStatus
deriving DecidableEq

/-- Wire-level `DialDataResponse`: optional bytes `data` (field 1). -/
structure ProtoDialDataResponse where
  data : Option (List Nat)
deriving DecidableEq

/-- Wire-level `DialBack`: optional fixed64 `nonce` (field 1). -/
structure ProtoDialBack where
  nonce : Option Nat
deriving DecidableEq

/-- The one-of union of `Message`; `noneMsg` is the default (nothing
populated), as for a freshly defaulted value or an empty buffer. -/
inductive OneOfMsg where
  | dialRequest (m : ProtoDialRequest)
  | dialResponse (m : ProtoDialResponse)
  | dialDataRequest (m : ProtoDialDataRequest)
  | dialDataResponse (m : ProtoDialDataResponse)
  | noneMsg
deriving DecidableEq

/-- The top-level wire `Message`, a single one-of field. -/
structure ProtoMessage where
  msg : OneOfMsg
deriving DecidableEq

/-- Field loop of the `DialRequest` reader: tag 10 appends an address entry,
tag 17 sets the fixed64 nonce, anything else is skipped.  Fuel decreases once
per field; a field consumes at least one byte, so the byte count is enough. -/
def readDialRequestGo : Nat → List Nat → List (List Nat) → Option Nat →
    Except DecodeError ProtoDialRequest
  | _, [], addrs, nonce => .ok ⟨addrs, nonce⟩
  | 0, _ :: _, _, _ => .error .Malformed
  | fuel + 1, bs, addrs, nonce =>
    match readVarint bs with
    | .error e => .error e
    | .ok (tag, r1) =>
      if tag = 10 then
        match readLenDelim r1 with
        | .error e => .error e
        | .ok (p, r2) => readDialRequestGo fuel r2 (addrs ++ [p]) nonce
      else if tag = 17 then
        match readFixed64 r1 with
        | .error e => .error e
        | .ok (v, r2) => readDialRequestGo fuel r2 addrs (some v)
      else
        match skipField (tag % 8) r1 with
        | .error e => .error e
        | .ok r2 => readDialRequestGo fuel r2 addrs nonce

/-- `DialRequest::from_reader`. -/
def readDialRequest (bs : List Nat) : Except DecodeError ProtoDialRequest :=
  readDialRequestGo bs.length bs [] none

/-- Field loop of the `DialResponse` reader: tag 8 reads the status enum,
tag 16 the uint32 `addrIdx`, tag 24 the dial-status enum. -/
def readDialResponseGo : Nat → List Nat → Option ResponseStatus → Option Nat →
    Option DialStatus → Except DecodeError ProtoDialResponse
  | _, [], status, addrIdx, dialStatus => .ok ⟨status, addrIdx, dialStatus⟩
  | 0, _ :: _, _, _, _ => .error .Malformed
  | fuel + 1, bs, status, addrIdx, dialStatus =>
    match readVarint bs with
    | .error e => .error e
    | .ok (tag, r1) =>
      if tag = 8 then
        match readVarint r1 with
        | .error e => .error e
        | .ok (v, r2) =>
          readDialResponseGo fuel r2 (some (ResponseStatus.fromVal (v % 2 ^ 32))) addrIdx dialStatus
      else if tag = 16 then
        match readVarint r1 with
        | .error e => .error e
        | .ok (v, r2) => readDialResponseGo fuel r2 status (some (v % 2 ^ 32)) dialStatus
      else if tag = 24 then
        match readVarint r1 with
        | .error e => .error e
        | .ok (v, r2) =>
          readDialResponseGo fuel r2 status addrIdx (some (DialStatus.fromVal (v % 2 ^ 32)))
      else
        match skipField (tag % 8) r1 with
        | .error e => .error e
        | .ok r2 => readDialResponseGo fuel r2 status addrIdx dialStatus

/-- `DialResponse::from_reader`. -/
def readDialResponse (bs : List Nat) : Except DecodeError ProtoDialResponse :=
  readDialResponseGo bs.length bs none none none

/-- Field loop of the `DialDataRequest` reader: tag 8 reads the uint32
`addrIdx`, tag 16 the uint64 `numBytes`. -/
def readDialDataRequestGo : Nat → List Nat → Option Nat → Option Nat →
    Except DecodeError ProtoDialDataRequest
  | _, [], addrIdx, numBytes => .ok ⟨addrIdx, numBytes⟩
  | 0, _ :: _, _, _ => .error .Malformed
  | fuel + 1, bs, addrIdx, numBytes =>
    match readVarint bs with
    | .error e => .error e
    | .ok (tag, r1) =>
      if tag = 8 then
        match readVarint r1 with
        | .error e => .error e
        | .ok (v, r2) => readDialDataRequestGo fuel r2 (some (v % 2 ^ 32)) numBytes
      else if tag = 16 then
        match readVarint r1 with
        | .error e => .error e
        | .ok (v, r2) => readDialDataRequestGo fuel r2 addrIdx (some (v % 2 ^ 64))
      else
        match skipField (tag % 8) r1 with
        | .error e => .error e
        | .ok r2 => readDialDataRequestGo fuel r2 addrIdx numBytes

/-- `DialDataRequest::from_reader`. -/
def readDialDataRequest (bs : List Nat) : Except DecodeError ProtoDialDataRequest :=
  readDialDataRequestGo bs.length bs none none

/-- Field loop of the `DialDataResponse` reader: tag 10 reads the bytes
payload `data`. -/
def readDialDataResponseGo : Nat → List Nat → Option (List Nat) →
    Except DecodeError ProtoDialDataResponse
  | _, [], data => .ok ⟨data⟩
  | 0, _ :: _, _ => .error .Malformed
  | fuel + 1, bs, data =>
    match readVarint bs with
    | .error e => .error e
    | .ok (tag, r1) =>
      if tag = 10 then
        match readLenDelim r1 with
        | .error e => .error e
        | .ok (p, r2) => readDialDataResponseGo fuel r2 (some p)
      else
        match skipField (tag % 8) r1 with
        | .error e => .error e
        | .ok r2 => readDialDataResponseGo fuel r2 data

/-- `DialDataResponse::from_reader`. -/
def readDialDataResponse (bs : List Nat) : Except DecodeError ProtoDialDataResponse :=
  readDialDataResponseGo bs.length bs none

/-- Field loop of the `DialBack` reader: tag 9 reads the fixed64 nonce. -/
def readDialBackGo : Nat → List Nat → Option Nat → Except DecodeError ProtoDialBack
  | _, [], nonce => .ok ⟨nonce⟩
  | 0, _ :: _, _ => .error .Malformed
  | fuel + 1, bs, nonce =>
    match readVarint bs with
    | .error e => .error e
    | .ok (tag, r1) =>
      if tag = 9 then
        match readFixed64 r1 with
        | .error e => .error e
        | .ok (v, r2) => readDialBackGo fuel r2 (some v)
      else
        match skipField (tag % 8) r1 with
        | .error e => .error e
        | .ok r2 => readDialBackGo fuel r2 nonce

/-- `DialBack::from_reader` over a whole buffer. -/
def protoDialBackFromBytes (bs : List Nat) : Except DecodeError ProtoDialBack :=
  readDialBackGo bs.length bs none

/-- Field loop of the `Message` reader: tags 10 / 18 / 26 / 34 read a
length-delimited submessage into the corresponding one-of variant (a later
occurrence overwrites an earlier one), anything else is skipped. -/
def readMessageGo : Nat → List Nat → OneOfMsg → Except DecodeError ProtoMessage
  | _, [], acc => .ok ⟨acc⟩
  | 0, _ :: _, _ => .error .Malformed
  | fuel + 1, bs, acc =>
    match readVarint bs with
    | .error e => .error e
    | .ok (tag, r1) =>
      if tag = 10 then
        match readLenDelim r1 with
        | .error e => .error e
        | .ok (p, r2) =>
          match readDialRequest p with
          | .error e => .error e
          | .ok m => readMessageGo fuel r2 (.dialRequest m)
      else if tag = 18 then
        match readLenDelim r1 with
        | .error e => .error e
        | .ok (p, r2) =>
          match readDialResponse p with
          | .error e => .error e
          | .ok m => readMessageGo fuel r2 (.dialResponse m)
      else if tag = 26 then
        match readLenDelim r1 with
        | .error e => .error e
        | .ok (p, r2) =>
          match readDialDataRequest p with
          | .error e => .error e
          | .ok m => readMessageGo fuel r2 (.dialDataRequest m)
      else if tag = 34 then
        match readLenDelim r1 with
        | .error e => .error e
        | .ok (p, r2) =>
          match readDialDataResponse p with
          | .error e => .error e
          | .ok m => readMessageGo fuel r2 (.dialDataResponse m)
      else
        match skipField (tag % 8) r1 with
        | .error e => .error e
        | .ok r2 => readMessageGo fuel r2 acc

/-- `proto::Message::from_reader` over a whole buffer; an empty buffer yields
the default message, whose one-of is unpopulated. -/
def protoMessageFromBytes (bs : List Nat) : Except DecodeError ProtoMessage :=
  readMessageGo bs.length bs .noneMsg

/-! ### Writers -/

/-- One repeated `addrs` entry of a `DialRequest`: tag 10, then the entry as
a length-delimited payload. -/
def encodeAddrField (a : List Nat) : List Nat :=
  10 :: (encodeVarint a.length ++ a)

/-- All repeated `addrs` entries, in order. -/
def encodeAddrFields : List (List Nat) → List Nat
  | [] => []
  | a :: rest => encodeAddrField a ++ encodeAddrFields rest

/-- The optional fixed64 `nonce` field of a `DialRequest` (tag 17), written
only when present. -/
def encodeNonceField : Option Nat → List Nat
  | some n => 17 :: encodeFixed64 n
  | none => []

/-- `DialRequest::write_message`: the repeated addresses, then the nonce. -/
def encodeDialRequest (m : ProtoDialRequest) : List Nat :=
  encodeAddrFields m.addrs ++ encodeNonceField m.nonce

/-- `DialResponse::write_message`: optional enum `status` (tag 8), optional
uint32 `addrIdx` (tag 16), optional enum `dialStatus` (tag 24). -/
def encodeDialResponse (m : ProtoDialResponse) : List Nat :=
  (match m.status with
   | some s => 8 :: encodeVarint s.toNat
   | none => []) ++
  (match m.addrIdx with
   | some i => 16 :: encodeVarint (i % 2 ^ 32)
   | none => []) ++
  (match m.dialStatus with
   | some d => 24 :: encodeVarint d.toNat
   | none => [])

/-- `DialDataRequest::write_message`: optional uint32 `addrIdx` (tag 8),
optional uint64 `numBytes` (tag 16). -/
def encodeDialDataRequest (m : ProtoDialDataRequest) : List Nat :=
  (match m.addrIdx with
   | some i => 8 :: encodeVarint (i % 2 ^ 32)
   | none => []) ++
  (match m.numBytes with
   | some n => 16 :: encodeVarint (n % 2 ^ 64)
   | none => [])

/-- `DialDataResponse::write_message`: optional bytes `data` (tag 10). -/
def encodeDialDataResponse (m : ProtoDialDataResponse) : List Nat :=
  match m.data with
  | some d => 10 :: (encodeVarint d.length ++ d)
  | none => []

/-- `DialBack::write_message`: optional fixed64 `nonce` (tag 9). -/
def encodeDialBack (m : ProtoDialBack) : List Nat :=
  match m.nonce with
  | some n => 9 :: encodeFixed64 n
  | none => []

/-- `Message::write_message`: the populated one-of variant as one
length-delimited field; an unpopulated one-of writes nothing. -/
def encodeMessage (m : ProtoMessage) : List Nat :=
  match m.msg with
  | .dialRequest d => 10 :: (encodeVarint (encodeDialRequest d).length ++ encodeDialRequest d)
  | .dialResponse d => 18 :: (encodeVarint (encodeDialResponse d).length ++ encodeDialResponse d)
  | .dialDataRequest d =>
    26 :: (encodeVarint (encodeDialDataRequest d).length ++ encodeDialDataRequest d)
  | .dialDataResponse d =>
    34 :: (encodeVarint (encodeDialDataResponse d).length ++ encodeDialDataResponse d)
  | .noneMsg => []

/-- `quick_protobuf::serialize_into_vec` for a `Message`: the message body
preceded by its own varint length (this is what the source's
`message_correct_max_size` test measures). -/
def serializeMessageIntoVec (m : ProtoMessage) : List Nat :=
  encodeVarint (encodeMessage m).length ++ encodeMessage m

/-- `quick_protobuf::serialize_into_vec` for a `DialBack` (what the source's
`dial_back_correct_size` test measures). -/
def serializeDialBackIntoVec (m : ProtoDialBack) : List Nat :=
  encodeVarint (encodeDialBack m).length ++ encodeDialBack m

/-! ### Multiaddress model -/

/-- Modelled from the spec: a component of a structured multiaddress.  The
`Multiaddr` type and its binary codec live in the external `multiaddr` crate
(re-exported by `libp2p_core`), not in the given sources; the spec only
requires that raw address bytes "parse as a valid multiaddress" or fail.  The
model covers a representative protocol table — ip4 (code 4, 4 payload bytes),
tcp (code 6, 2 bytes), udp (code 273, 2 bytes) — with the crate's binary
layout of a varint protocol code followed by the fixed-size payload. -/
inductive MultiaddrPart where
  | ip4 (a b c d : Nat)
  | tcp (hi lo : Nat)
  | udp (hi lo : Nat)
deriving DecidableEq

/-- A structured multiaddress: a sequence of components. -/
abbrev Multiaddr := List MultiaddrPart

/-- Binary form of one component: varint protocol code, then payload. -/
def MultiaddrPart.toVec : MultiaddrPart → List Nat
  | .ip4 a b c d => encodeVarint 4 ++ [a, b, c, d]
  | .tcp hi lo => encodeVarint 6 ++ [hi, lo]
  | .udp hi lo => encodeVarint 273 ++ [hi, lo]

/-- `Multiaddr::to_vec`: the concatenated binary components. -/
def Multiaddr.toVec : Multiaddr → List Nat
  | [] => []
  | p :: rest => p.toVec ++ Multiaddr.toVec rest

/-- Modelled from the spec: the multiaddress binary parser
(`Multiaddr::try_from(Vec<u8>)`), reading components until the buffer is
exhausted; an unknown protocol code, a truncated payload, or a malformed
varint fails.  Fuel decreases once per component, each of which consumes at
least one byte. -/
def Multiaddr.tryFromGo : Nat → List Nat → Option Multiaddr
  | _, [] => some []
  | 0, _ :: _ => none
  | fuel + 1, bs =>
    match readVarint bs with
    | .error _ => none
    | .ok (code, rest) =>
      if code = 4 then
        match rest with
        | a :: b :: c :: d :: r => (Multiaddr.tryFromGo fuel r).map (.ip4 a b c d :: ·)
        | _ => none
      else if code = 6 then
        match rest with
        | hi :: lo :: r => (Multiaddr.tryFromGo fuel r).map (.tcp hi lo :: ·)
        | _ => none
      else if code = 273 then
        match rest with
        | hi :: lo :: r => (Multiaddr.tryFromGo fuel r).map (.udp hi lo :: ·)
        | _ => none
      else none

/-- `Multiaddr::try_from` on raw bytes: `some` on a syntactically valid
multiaddress, `none` otherwise. -/
def Multiaddr.tryFrom (bs : List Nat) : Option Multiaddr :=
  Multiaddr.tryFromGo bs.length bs

/-! ### Protocol constants (`request_response.rs`) -/

/-- Upper bound, in bytes, of a serialized `Request`/`Response` message. -/
def REQUEST_MAX_SIZE : Nat := 4104

/-- Lower bound of the randomized padding requirement. -/
def DATA_LEN_LOWER_BOUND : Nat := 30000

/-- Upper bound of the randomized padding requirement. -/
def DATA_LEN_UPPER_BOUND : Nat := 100000

/-- Per-message cap on the padding byte blob. -/
def DATA_FIELD_LEN_UPPER_BOUND : Nat := 4096

/-- Upper bound, in bytes, of a serialized `DialBack` message. -/
def DIAL_BACK_MAX_SIZE : Nat := 10

/-! ### The typed message layer -/

/-- `DialRequest { addrs, nonce }`; `nonce` is a `u64`. -/
structure DialRequest where
  addrs : List Multiaddr
  nonce : Nat
deriving DecidableEq

/-- `DialDataResponse { data_count }`; `data_count` is a `usize`. -/
structure DialDataResponse where
  data_count : Nat
deriving DecidableEq

/-- The requester-side message: `Request::Dial` or `Request::Data`. -/
inductive Request where
  | dial (r : DialRequest)
  | data (r : DialDataResponse)
deriving DecidableEq

/-- `DialDataRequest { addr_idx, num_bytes }`; both fields are `usize`. -/
structure DialDataRequest where
  addr_idx : Nat
  num_bytes : Nat
deriving DecidableEq

/-- `DialResponse { status, addr_idx, dial_status }`; `addr_idx` is `usize`. -/
structure DialResponse where
  status : ResponseStatus
  addr_idx : Nat
  dial_status : DialStatus
deriving DecidableEq

/-- The verifier-side message: `Response::Dial` or `Response::Data`. -/
inductive Response where
  | dial (r : DialResponse)
  | data (r : DialDataRequest)
deriving DecidableEq

/-- `DialBack { nonce }`; `nonce` is a `u64`. -/
structure DialBack where
  nonce : Nat
deriving DecidableEq

/-- The `collect::<Result<Vec<Multiaddr>, _>>` step of `Request::from_bytes`:
parse each raw address entry in order, short-circuiting on the first entry
that is not a valid multiaddress. -/
def collectAddrs : List (List Nat) → Except DecodeError (List Multiaddr)
  | [] => .ok []
  | e :: rest =>
    match Multiaddr.tryFrom e with
    | none => .error .InvalidAddress
    | some a =>
      match collectAddrs rest with
      | .error err => .error err
      | .ok l => .ok (a :: l)

/-- `Request::from_bytes`: run the schema reader, then match the one-of —
`dialRequest` re-parses the addresses and requires `nonce`, `dialDataResponse`
requires `data` and keeps only its length, anything else is the wrong
variant. -/
def Request.from_bytes (bytes : List Nat) : Except DecodeError Request :=
  match protoMessageFromBytes bytes with
  | .error e => .error e
  | .ok msg =>
    match msg.msg with
    | .dialRequest m =>
      match collectAddrs m.addrs with
      | .error e => .error e
      | .ok addrs =>
        match m.nonce with
        | some nonce => .ok (.dial ⟨addrs, nonce⟩)
        | none => .error (.MissingField "nonce")
    | .dialDataResponse m =>
      match m.data with
      | some d => .ok (.data ⟨d.length⟩)
      | none => .error (.MissingField "data")
    | _ => .error .UnexpectedVariant

/-- The `make_message_bytes` closure of `Request::into_bytes`: build the wire
message and serialize it.  The `assert!(data_count <= DATA_FIELD_LEN_UPPER_BOUND)`
guard (equivalently, the panicking slice `&DATA[..data_count]` of the static
4096-byte zero buffer) is modelled as `none`. -/
def Request.make_message_bytes : Request → Option (List Nat)
  | .dial ⟨addrs, nonce⟩ =>
    some (encodeMessage ⟨.dialRequest ⟨addrs.map Multiaddr.toVec, some nonce⟩⟩)
  | .data ⟨data_count⟩ =>
    if data_count ≤ DATA_FIELD_LEN_UPPER_BOUND then
      some (encodeMessage ⟨.dialDataResponse ⟨some (List.replicate data_count 0)⟩⟩)
    else none

/-- `Request::into_bytes`: for a `Data` request of exactly
`DATA_FIELD_LEN_UPPER_BOUND` bytes the source returns the `OnceLock`-cached
serialization (whose initializer runs `make_message_bytes` on that same
value); otherwise it serializes directly. -/
def Request.into_bytes (r : Request) : Option (List Nat) :=
  match r with
  | .data ⟨data_count⟩ =>
    if data_count = DATA_FIELD_LEN_UPPER_BOUND then
      Request.make_message_bytes (.data ⟨data_count⟩)
    else Request.make_message_bytes r
  | .dial _ => Request.make_message_bytes r

/-- State-passing model of the `OnceLock` cache of `Request::into_bytes`:
`cache` holds the cell's contents before the call; the result pairs the
returned bytes with the cell's contents after the call.  A populated cell is
returned as-is; an empty cell is initialized by `make_message_bytes` applied
to the matched value (`data_count = DATA_FIELD_LEN_UPPER_BOUND`). -/
def Request.into_bytes_cached (r : Request) (cache : Option (List Nat)) :
    Option (List Nat) × Option (List Nat) :=
  match r with
  | .data ⟨data_count⟩ =>
    if data_count = DATA_FIELD_LEN_UPPER_BOUND then
      match cache with
      | some b => (some b, some b)
      | none => (Request.make_message_bytes (.data ⟨data_count⟩),
                 Request.make_message_bytes (.data ⟨data_count⟩))
    else (Request.make_message_bytes r, cache)
  | .dial _ => (Request.make_message_bytes r, cache)

/-- `Response::from_bytes`: run the schema reader, then match the one-of —
`dialResponse` requires `status`, `addrIdx`, `dialStatus` (checked in that
order), `dialDataRequest` requires `addrIdx` and `numBytes`, anything else
is the wrong variant.  The `as usize` casts are lossless on the 64-bit
platform modelled here. -/
def Response.from_bytes (bytes : List Nat) : Except DecodeError Response :=
  match protoMessageFromBytes bytes with
  | .error e => .error e
  | .ok msg =>
    match msg.msg with
    | .dialResponse m =>
      match m.status with
      | none => .error (.MissingField "status")
      | some status =>
        match m.addrIdx with
        | none => .error (.MissingField "addrIdx")
        | some addr_idx =>
          match m.dialStatus with
          | none => .error (.MissingField "dialStatus")
          | some dial_status => .ok (.dial ⟨status, addr_idx, dial_status⟩)
    | .dialDataRequest m =>
      match m.addrIdx with
      | none => .error (.MissingField "addrIdx")
      | some addr_idx =>
        match m.numBytes with
        | none => .error (.MissingField "numBytes")
        | some num_bytes => .ok (.data ⟨addr_idx, num_bytes⟩)
    | _ => .error .UnexpectedVariant

/-- `Response::into_bytes`: build the wire message — the `addr_idx as u32`
cast narrows modulo `2 ^ 32`, the `num_bytes as u64` cast modulo `2 ^ 64` —
and serialize it. -/
def Response.into_bytes (r : Response) : List Nat :=
  match r with
  | .dial ⟨status, addr_idx, dial_status⟩ =>
    encodeMessage ⟨.dialResponse ⟨some status, some (addr_idx % 2 ^ 32), some dial_status⟩⟩
  | .data ⟨addr_idx, num_bytes⟩ =>
    encodeMessage ⟨.dialDataRequest ⟨some (addr_idx % 2 ^ 32), some (num_bytes % 2 ^ 64)⟩⟩

/-- `DialBack::from_bytes`: run the `DialBack` schema reader directly (no
`Message` wrapper) and require `nonce`. -/
def DialBack.from_bytes (bytes : List Nat) : Except DecodeError DialBack :=
  match protoDialBackFromBytes bytes with
  | .error e => .error e
  | .ok m =>
    match m.nonce with
    | some nonce => .ok ⟨nonce⟩
    | none => .error (.MissingField "nonce")

/-- The message body written by `DialBack::write_into` (before the outer
length prefix): the serialized `proto::DialBack` with the nonce populated. -/
def DialBack.into_bytes (d : DialBack) : List Nat :=
  encodeDialBack ⟨some d.nonce⟩

/-! ### Framed reading and the padding generator -/

/-- Error surface of the framed reader: stream-level failures (a frame longer
than the per-call maximum, a truncated stream, an unreadable length prefix)
are I/O errors, distinguished from the decode taxonomy. -/
inductive IoOrDecodeError where
  | frameTooLarge
  | truncated
  | invalidLengthPrefix
  | decode (e : DecodeError)
deriving DecidableEq

/-- Modelled from the spec: `libp2p_core::upgrade::read_length_prefixed`
(external to the given sources) reads an unsigned-varint length prefix,
fails if it exceeds the per-call maximum frame size, then reads exactly that
many bytes from the stream. -/
def read_length_prefixed (maxSize : Nat) (stream : List Nat) :
    Except IoOrDecodeError (List Nat) :=
  match readVarint stream with
  | .error _ => .error .invalidLengthPrefix
  | .ok (len, rest) =>
    if maxSize < len then .error .frameTooLarge
    else if rest.length < len then .error .truncated
    else .ok (rest.take len)

/-- Modelled from the spec: `libp2p_core::upgrade::write_length_prefixed`
writes the body's varint length followed by the body; this is the wire frame
a peer's reader sees. -/
def write_length_prefixed (bytes : List Nat) : List Nat :=
  encodeVarint bytes.length ++ bytes

/-- `Request::read_from` (the `read_from!` macro): read one length-prefixed
frame with the hard-coded per-call maximum of 1024 bytes, then decode it. -/
def Request.read_from (stream : List Nat) : Except IoOrDecodeError Request :=
  match read_length_prefixed 1024 stream with
  | .error e => .error e
  | .ok bytes =>
    match Request.from_bytes bytes with
    | .error e => .error (.decode e)
    | .ok r => .ok r

/-- `Response::read_from`: same 1024-byte framed read, then decode. -/
def Response.read_from (stream : List Nat) : Except IoOrDecodeError Response :=
  match read_length_prefixed 1024 stream with
  | .error e => .error e
  | .ok bytes =>
    match Response.from_bytes bytes with
    | .error e => .error (.decode e)
    | .ok r => .ok r

/-- `DialBack::read_from`: same 1024-byte framed read, then decode. -/
def DialBack.read_from (stream : List Nat) : Except IoOrDecodeError DialBack :=
  match read_length_prefixed 1024 stream with
  | .error e => .error e
  | .ok bytes =>
    match DialBack.from_bytes bytes with
    | .error e => .error (.decode e)
    | .ok r => .ok r

/-- Modelled from the spec: the external rand crate's `gen_range` on the
inclusive range `lo..=hi` returns a value drawn from the closed interval
`[lo, hi]`; the draw is modelled as the source of randomness' value `r`
reduced into the interval. -/
def gen_range (lo hi r : Nat) : Nat :=
  lo + r % (hi - lo + 1)

/-- `DialDataRequest::from_rng`: pair the given address index with a
randomized padding requirement in
`[DATA_LEN_LOWER_BOUND, DATA_LEN_UPPER_BOUND]`. -/
def DialDataRequest.from_rng (addr_idx : Nat) (r : Nat) : DialDataRequest :=
  ⟨addr_idx, gen_range DATA_LEN_LOWER_BOUND DATA_LEN_UPPER_BOUND r⟩

/-! ### Reader step lemmas

One lemma per (loop, known tag) pair: consuming one encoded field advances
the loop with the accumulator updated, spending one unit of fuel. -/

theorem readVarint_encode_nil (n : Nat) (h : n < 128 ^ 10) :
    readVarint (encodeVarint n) = .ok (n, []) := by
  simpa using readVarintGo_encodeVarint n [] h

theorem readDialRequestGo_nil (f : Nat) (addrs : List (List Nat)) (nonce : Option Nat) :
    readDialRequestGo f [] addrs nonce = .ok ⟨addrs, nonce⟩ := by
  cases f <;> rfl

theorem readDialRequestGo_step10 (f : Nat) (rest p tail : List Nat)
    (addrs : List (List Nat)) (nonce : Option Nat) (h : readLenDelim rest = .ok (p, tail)) :
    readDialRequestGo (f + 1) (10 :: rest) addrs nonce =
      readDialRequestGo f tail (addrs ++ [p]) nonce := by
  simp [readDialRequestGo, readVarint_cons_lt, h]

theorem readDialRequestGo_step17 (f : Nat) (rest tail : List Nat) (v : Nat)
    (addrs : List (List Nat)) (nonce : Option Nat) (h : readFixed64 rest = .ok (v, tail)) :
    readDialRequestGo (f + 1) (17 :: rest) addrs nonce =
      readDialRequestGo f tail addrs (some v) := by
  simp [readDialRequestGo, readVarint_cons_lt, h]

theorem readDialResponseGo_nil (f : Nat) (a : Option ResponseStatus) (b : Option Nat)
    (c : Option DialStatus) : readDialResponseGo f [] a b c = .ok ⟨a, b, c⟩ := by
  cases f <;> rfl

theorem readDialResponseGo_step8 (f : Nat) (rest tail : List Nat) (v : Nat)
    (a : Option ResponseStatus) (b : Option Nat) (c : Option DialStatus)
    (h : readVarint rest = .ok (v, tail)) :
    readDialResponseGo (f + 1) (8 :: rest) a b c =
      readDialResponseGo f tail (some (ResponseStatus.fromVal (v % 2 ^ 32))) b c := by
  simp [readDialResponseGo, readVarint_cons_lt, h]

theorem readDialResponseGo_step16 (f : Nat) (rest tail : List Nat) (v : Nat)
    (a : Option ResponseStatus) (b : Option Nat) (c : Option DialStatus)
    (h : readVarint rest = .ok (v, tail)) :
    readDialResponseGo (f + 1) (16 :: rest) a b c =
      readDialResponseGo f tail a (some (v % 2 ^ 32)) c := by
  simp [readDialResponseGo, readVarint_cons_lt, h]

theorem readDialResponseGo_step24 (f : Nat) (rest tail : List Nat) (v : Nat)
    (a : Option ResponseStatus) (b : Option Nat) (c : Option DialStatus)
    (h : readVarint rest = .ok (v, tail)) :
    readDialResponseGo (f + 1) (24 :: rest) a b c =
      readDialResponseGo f tail a b (some (DialStatus.fromVal (v % 2 ^ 32))) := by
  simp [readDialResponseGo, readVarint_cons_lt, h]

theorem readDialDataRequestGo_nil (f : Nat) (a b : Option Nat) :
    readDialDataRequestGo f [] a b = .ok ⟨a, b⟩ := by
  cases f <;> rfl

theorem readDialDataRequestGo_step8 (f : Nat) (rest tail : List Nat) (v : Nat)
    (a b : Option Nat) (h : readVarint rest = .ok (v, tail)) :
    readDialDataRequestGo (f + 1) (8 :: rest) a b =
      readDialDataRequestGo f tail (some (v % 2 ^ 32)) b := by
  simp [readDialDataRequestGo, readVarint_cons_lt, h]

theorem readDialDataRequestGo_step16 (f : Nat) (rest tail : List Nat) (v : Nat)
    (a b : Option Nat) (h : readVarint rest = .ok (v, tail)) :
    readDialDataRequestGo (f + 1) (16 :: rest) a b =
      readDialDataRequestGo f tail a (some (v % 2 ^ 64)) := by
  simp [readDialDataRequestGo, readVarint_cons_lt, h]

theorem readDialDataResponseGo_nil (f : Nat) (a : Option (List Nat)) :
    readDialDataResponseGo f [] a = .ok ⟨a⟩ := by
  cases f <;> rfl

theorem readDialDataResponseGo_step10 (f : Nat) (rest p tail : List Nat)
    (a : Option (List Nat)) (h : readLenDelim rest = .ok (p, tail)) :
    readDialDataResponseGo (f + 1) (10 :: rest) a =
      readDialDataResponseGo f tail (some p) := by
  simp [readDialDataResponseGo, readVarint_cons_lt, h]

theorem readDialBackGo_nil (f : Nat) (a : Option Nat) :
    readDialBackGo f [] a = .ok ⟨a⟩ := by
  cases f <;> rfl

theorem readDialBackGo_step9 (f : Nat) (rest tail : List Nat) (v : Nat) (a : Option Nat)
    (h : readFixed64 rest = .ok (v, tail)) :
    readDialBackGo (f + 1) (9 :: rest) a = readDialBackGo f tail (some v) := by
  simp [readDialBackGo, readVarint_cons_lt, h]

theorem readMessageGo_nil (f : Nat) (acc : OneOfMsg) :
    readMessageGo f [] acc = .ok ⟨acc⟩ := by
  cases f <;> rfl

theorem readMessageGo_step10 (f : Nat) (rest p tail : List Nat) (m : ProtoDialRequest)
    (acc : OneOfMsg) (h1 : readLenDelim rest = .ok (p, tail)) (h2 : readDialRequest p = .ok m) :
    readMessageGo (f + 1) (10 :: rest) acc = readMessageGo f tail (.dialRequest m) := by
  simp [readMessageGo, readVarint_cons_lt, h1, h2]

theorem readMessageGo_step18 (f : Nat) (rest p tail : List Nat) (m : ProtoDialResponse)
    (acc : OneOfMsg) (h1 : readLenDelim rest = .ok (p, tail)) (h2 : readDialResponse p = .ok m) :
    readMessageGo (f + 1) (18 :: rest) acc = readMessageGo f tail (.dialResponse m) := by
  simp [readMessageGo, readVarint_cons_lt, h1, h2]

theorem readMessageGo_step26 (f : Nat) (rest p tail : List Nat) (m : ProtoDialDataRequest)
    (acc : OneOfMsg) (h1 : readLenDelim rest = .ok (p, tail))
    (h2 : readDialDataRequest p = .ok m) :
    readMessageGo (f + 1) (26 :: rest) acc = readMessageGo f tail (.dialDataRequest m) := by
  simp [readMessageGo, readVarint_cons_lt, h1, h2]

theorem readMessageGo_step34 (f : Nat) (rest p tail : List Nat) (m : ProtoDialDataResponse)
    (acc : OneOfMsg) (h1 : readLenDelim rest = .ok (p, tail))
    (h2 : readDialDataResponse p = .ok m) :
    readMessageGo (f + 1) (34 :: rest) acc = readMessageGo f tail (.dialDataResponse m) := by
  simp [readMessageGo, readVarint_cons_lt, h1, h2]

/-! ### Round trips through the schema readers -/

theorem encodeAddrFields_length_ge (l : List (List Nat)) :
    l.length ≤ (encodeAddrFields l).length := by
  induction l with
  | nil => simp [encodeAddrFields]
  | cons a rest ih =>
    simp only [encodeAddrFields, encodeAddrField, List.length_append, List.length_cons]
    omega

theorem readDialRequestGo_encodeAddrFields :
    ∀ (l : List (List Nat)) (f : Nat) (acc : List (List Nat)) (accN : Option Nat)
      (tail : List Nat), (∀ a ∈ l, a.length < 128 ^ 10) → l.length ≤ f →
      readDialRequestGo f (encodeAddrFields l ++ tail) acc accN =
        readDialRequestGo (f - l.length) tail (acc ++ l) accN := by
  intro l
  induction l with
  | nil => intro f acc accN tail _ _; simp [encodeAddrFields]
  | cons a rest ih =>
    intro f acc accN tail hlen hf
    obtain ⟨g, rfl⟩ : ∃ g, f = g + 1 := ⟨f - 1, by simp at hf; omega⟩
    have ha : a.length < 128 ^ 10 := hlen a (by simp)
    have hchain : encodeAddrFields (a :: rest) ++ tail =
        10 :: (encodeVarint a.length ++ (a ++ (encodeAddrFields rest ++ tail))) := by
      simp [encodeAddrFields, encodeAddrField]
    rw [hchain, readDialRequestGo_step10 g _ a (encodeAddrFields rest ++ tail) acc accN
      (readLenDelim_encode a (encodeAddrFields rest ++ tail) ha)]
    rw [ih g (acc ++ [a]) accN tail (fun x hx => hlen x (by simp [hx])) (by simp at hf; omega)]
    simp

theorem readDialRequest_encode (m : ProtoDialRequest)
    (hl : ∀ a ∈ m.addrs, a.length < 128 ^ 10) :
    readDialRequest (encodeDialRequest m) =
      .ok ⟨m.addrs, m.nonce.map (· % 2 ^ 64)⟩ := by
  obtain ⟨addrs, nonce⟩ := m
  simp only [readDialRequest, encodeDialRequest]
  have hfuel : addrs.length ≤ (encodeAddrFields addrs ++ encodeNonceField nonce).length := by
    have := encodeAddrFields_length_ge addrs
    simp only [List.length_append]
    omega
  rw [readDialRequestGo_encodeAddrFields addrs _ [] none (encodeNonceField nonce) hl hfuel]
  cases nonce with
  | none => simp [encodeNonceField, readDialRequestGo_nil]
  | some n =>
    have hleft : 1 ≤ (encodeAddrFields addrs ++ encodeNonceField (some n)).length -
        addrs.length := by
      have h1 := encodeAddrFields_length_ge addrs
      simp [encodeNonceField, encodeFixed64]
      omega
    obtain ⟨g, hg⟩ : ∃ g, (encodeAddrFields addrs ++ encodeNonceField (some n)).length -
        addrs.length = g + 1 :=
      ⟨(encodeAddrFields addrs ++ encodeNonceField (some n)).length - addrs.length - 1,
        by omega⟩
    rw [hg]
    show readDialRequestGo (g + 1) (17 :: encodeFixed64 n) ([] ++ addrs) (none) =
      .ok ⟨addrs, some (n % 2 ^ 64)⟩
    rw [readDialRequestGo_step17 g _ [] (n % 2 ^ 64) _ _ (readFixed64_encodeFixed64_nil n)]
    simp [readDialRequestGo_nil]

theorem readDialResponse_encode (s : ResponseStatus) (i : Nat) (d : DialStatus) :
    readDialResponse (encodeDialResponse ⟨some s, some i, some d⟩) =
      .ok ⟨some s, some (i % 2 ^ 32), some d⟩ := by
  have hs : s.toNat < 128 ^ 10 := lt_trans (responseStatus_toNat_lt s) (by norm_num)
  have hd : d.toNat < 128 ^ 10 := lt_trans (dialStatus_toNat_lt d) (by norm_num)
  have hi : i % 2 ^ 32 < 128 ^ 10 :=
    lt_trans (Nat.mod_lt _ (by norm_num)) (by norm_num)
  have hshape : encodeDialResponse ⟨some s, some i, some d⟩ =
      8 :: (encodeVarint s.toNat ++
        (16 :: (encodeVarint (i % 2 ^ 32) ++ (24 :: encodeVarint d.toNat)))) := by
    simp [encodeDialResponse]
  simp only [readDialResponse, hshape, List.length_cons]
  rw [readDialResponseGo_step8 _ _ _ _ _ _ _
    (readVarintGo_encodeVarint s.toNat _ hs)]
  have hshape2 : (encodeVarint s.toNat ++
      (16 :: (encodeVarint (i % 2 ^ 32) ++ (24 :: encodeVarint d.toNat)))).length =
      ((encodeVarint (i % 2 ^ 32) ++ (24 :: encodeVarint d.toNat)).length +
        (encodeVarint s.toNat).length) + 1 := by
    simp
    omega
  rw [hshape2]
  rw [readDialResponseGo_step16 _ _ _ _ _ _ _
    (readVarintGo_encodeVarint (i % 2 ^ 32) _ hi)]
  have hshape3 : (encodeVarint (i % 2 ^ 32) ++ (24 :: encodeVarint d.toNat)).length +
      (encodeVarint s.toNat).length =
      ((encodeVarint d.toNat).length +
        ((encodeVarint (i % 2 ^ 32)).length + (encodeVarint s.toNat).length)) + 1 := by
    simp
    omega
  rw [hshape3]
  rw [readDialResponseGo_step24 _ _ _ _ _ _ _ (readVarint_encode_nil d.toNat hd)]
  rw [readDialResponseGo_nil]
  rw [Nat.mod_eq_of_lt (responseStatus_toNat_lt s), responseStatus_fromVal_toNat,
    Nat.mod_mod_of_dvd i (dvd_refl (2 ^ 32)),
    Nat.mod_eq_of_lt (dialStatus_toNat_lt d), dialStatus_fromVal_toNat]

theorem readDialDataRequest_encode (i n : Nat) :
    readDialDataRequest (encodeDialDataRequest ⟨some i, some n⟩) =
      .ok ⟨some (i % 2 ^ 32), some (n % 2 ^ 64)⟩ := by
  have hi : i % 2 ^ 32 < 128 ^ 10 :=
    lt_trans (Nat.mod_lt _ (by norm_num)) (by norm_num)
  have hn : n % 2 ^ 64 < 128 ^ 10 :=
    lt_trans (Nat.mod_lt _ (by norm_num)) (by norm_num)
  have hshape : encodeDialDataRequest ⟨some i, some n⟩ =
      8 :: (encodeVarint (i % 2 ^ 32) ++ (16 :: encodeVarint (n % 2 ^ 64))) := by
    simp [encodeDialDataRequest]
  simp only [readDialDataRequest, hshape, List.length_cons]
  rw [readDialDataRequestGo_step8 _ _ _ _ _ _
    (readVarintGo_encodeVarint (i % 2 ^ 32) _ hi)]
  have hshape2 : (encodeVarint (i % 2 ^ 32) ++ (16 :: encodeVarint (n % 2 ^ 64))).length =
      ((encodeVarint (n % 2 ^ 64)).length + (encodeVarint (i % 2 ^ 32)).length) + 1 := by
    simp
    omega
  rw [hshape2]
  rw [readDialDataRequestGo_step16 _ _ _ _ _ _ (readVarint_encode_nil (n % 2 ^ 64) hn)]
  rw [readDialDataRequestGo_nil]
  rw [Nat.mod_mod_of_dvd i (dvd_refl (2 ^ 32)), Nat.mod_mod_of_dvd n (dvd_refl (2 ^ 64))]

theorem readDialDataResponse_encode (d : List Nat) (hd : d.length < 128 ^ 10) :
    readDialDataResponse (encodeDialDataResponse ⟨some d⟩) = .ok ⟨some d⟩ := by
  have hshape : encodeDialDataResponse ⟨some d⟩ =
      10 :: (encodeVarint d.length ++ d) := by
    simp [encodeDialDataResponse]
  simp only [readDialDataResponse, hshape, List.length_cons]
  rw [readDialDataResponseGo_step10 _ _ d [] _ (readLenDelim_encode_nil d hd)]
  rw [readDialDataResponseGo_nil]

theorem readDialBack_encode (n : Nat) :
    protoDialBackFromBytes (encodeDialBack ⟨some n⟩) = .ok ⟨some (n % 2 ^ 64)⟩ := by
  have hshape : encodeDialBack ⟨some n⟩ = 9 :: encodeFixed64 n := by
    simp [encodeDialBack]
  simp only [protoDialBackFromBytes, hshape, List.length_cons]
  rw [readDialBackGo_step9 _ _ [] (n % 2 ^ 64) _ (readFixed64_encodeFixed64_nil n)]
  rw [readDialBackGo_nil]

theorem protoMessageFromBytes_encode_dialRequest (m : ProtoDialRequest)
    (hl : ∀ a ∈ m.addrs, a.length < 128 ^ 10)
    (hb : (encodeDialRequest m).length < 128 ^ 10) :
    protoMessageFromBytes (encodeMessage ⟨.dialRequest m⟩) =
      .ok ⟨.dialRequest ⟨m.addrs, m.nonce.map (· % 2 ^ 64)⟩⟩ := by
  simp only [protoMessageFromBytes, encodeMessage, List.length_cons]
  rw [readMessageGo_step10 _ _ (encodeDialRequest m) [] _ _
    (readLenDelim_encode_nil _ hb) (readDialRequest_encode m hl)]
  rw [readMessageGo_nil]

theorem protoMessageFromBytes_encode_dialResponse (s : ResponseStatus) (i : Nat)
    (d : DialStatus) :
    protoMessageFromBytes (encodeMessage ⟨.dialResponse ⟨some s, some i, some d⟩⟩) =
      .ok ⟨.dialResponse ⟨some s, some (i % 2 ^ 32), some d⟩⟩ := by
  have hb : (encodeDialResponse ⟨some s, some i, some d⟩).length < 128 ^ 10 := by
    have h1 := encodeVarint_length_le_ten s.toNat (lt_trans (responseStatus_toNat_lt s) (by norm_num))
    have h2 := encodeVarint_length_le_ten (i % 2 ^ 32)
      (lt_trans (Nat.mod_lt _ (by norm_num)) (by norm_num))
    have h3 := encodeVarint_length_le_ten d.toNat (lt_trans (dialStatus_toNat_lt d) (by norm_num))
    have hlen : (encodeDialResponse ⟨some s, some i, some d⟩).length =
        (encodeVarint s.toNat).length + (encodeVarint (i % 2 ^ 32)).length +
          (encodeVarint d.toNat).length + 3 := by
      simp only [encodeDialResponse, List.length_append, List.length_cons]
      omega
    have hpow : (128 : Nat) ^ 10 = 1180591620717411303424 := by norm_num
    rw [hlen, hpow]
    omega
  simp only [protoMessageFromBytes, encodeMessage, List.length_cons]
  rw [readMessageGo_step18 _ _ (encodeDialResponse ⟨some s, some i, some d⟩) [] _ _
    (readLenDelim_encode_nil _ hb) (readDialResponse_encode s i d)]
  rw [readMessageGo_nil]

theorem protoMessageFromBytes_encode_dialDataRequest (i n : Nat) :
    protoMessageFromBytes (encodeMessage ⟨.dialDataRequest ⟨some i, some n⟩⟩) =
      .ok ⟨.dialDataRequest ⟨some (i % 2 ^ 32), some (n % 2 ^ 64)⟩⟩ := by
  have hb : (encodeDialDataRequest ⟨some i, some n⟩).length < 128 ^ 10 := by
    have h1 := encodeVarint_length_le_ten (i % 2 ^ 32)
      (lt_trans (Nat.mod_lt _ (by norm_num)) (by norm_num))
    have h2 := encodeVarint_length_le_ten (n % 2 ^ 64) (Nat.mod_lt _ (by norm_num))
    have hlen : (encodeDialDataRequest ⟨some i, some n⟩).length =
        (encodeVarint (i % 2 ^ 32)).length + (encodeVarint (n % 2 ^ 64)).length + 2 := by
      simp only [encodeDialDataRequest, List.length_append, List.length_cons]
      omega
    have hpow : (128 : Nat) ^ 10 = 1180591620717411303424 := by norm_num
    rw [hlen, hpow]
    omega
  simp only [protoMessageFromBytes, encodeMessage, List.length_cons]
  rw [readMessageGo_step26 _ _ (encodeDialDataRequest ⟨some i, some n⟩) [] _ _
    (readLenDelim_encode_nil _ hb) (readDialDataRequest_encode i n)]
  rw [readMessageGo_nil]

theorem protoMessageFromBytes_encode_dialDataResponse (d : List Nat)
    (hd : d.length < 2 ^ 64) :
    protoMessageFromBytes (encodeMessage ⟨.dialDataResponse ⟨some d⟩⟩) =
      .ok ⟨.dialDataResponse ⟨some d⟩⟩ := by
  have hd10 : d.length < 128 ^ 10 := lt_trans hd (by norm_num)
  have hb : (encodeDialDataResponse ⟨some d⟩).length < 128 ^ 10 := by
    have h1 := encodeVarint_length_le_ten d.length hd
    have hlen : (encodeDialDataResponse ⟨some d⟩).length =
        (encodeVarint d.length).length + d.length + 1 := by
      simp only [encodeDialDataResponse, List.length_append, List.length_cons]
    have hpow : (128 : Nat) ^ 10 = 1180591620717411303424 := by norm_num
    have hd' : d.length < 18446744073709551616 := by
      have hpow2 : (2 : Nat) ^ 64 = 18446744073709551616 := by norm_num
      rw [← hpow2]
      exact hd
    rw [hlen, hpow]
    omega
  simp only [protoMessageFromBytes, encodeMessage, List.length_cons]
  rw [readMessageGo_step34 _ _ (encodeDialDataResponse ⟨some d⟩) [] _ _
    (readLenDelim_encode_nil _ hb) (readDialDataResponse_encode d hd10)]
  rw [readMessageGo_nil]

/-! ### Multiaddress round trip -/

theorem encodeVarint_four : encodeVarint 4 = [4] := by decide

theorem encodeVarint_six : encodeVarint 6 = [6] := by decide

theorem encodeVarint_udp : encodeVarint 273 = [145, 2] := by decide

theorem readVarint_udp (t : List Nat) : readVarint (145 :: 2 :: t) = .ok (273, t) := by
  simp [readVarint, readVarintGo]

theorem MultiaddrPart.toVec_length_pos (p : MultiaddrPart) : 0 < p.toVec.length := by
  cases p <;> simp [toVec, encodeVarint_four, encodeVarint_six, encodeVarint_udp]

theorem Multiaddr.length_le_toVec_length (a : Multiaddr) : a.length ≤ a.toVec.length := by
  induction a with
  | nil => simp [Multiaddr.toVec]
  | cons p rest ih =>
    have := p.toVec_length_pos
    simp only [Multiaddr.toVec, List.length_append, List.length_cons]
    omega

theorem Multiaddr.tryFromGo_toVec :
    ∀ (a : Multiaddr) (f : Nat), a.length ≤ f → Multiaddr.tryFromGo f a.toVec = some a := by
  intro a
  induction a with
  | nil => intro f _; cases f <;> rfl
  | cons p rest ih =>
    intro f hf
    obtain ⟨g, rfl⟩ : ∃ g, f = g + 1 := ⟨f - 1, by simp at hf; omega⟩
    have hrec := ih g (by simp at hf; omega)
    cases p with
    | ip4 a b c d =>
      simp only [Multiaddr.toVec, MultiaddrPart.toVec, encodeVarint_four,
        List.cons_append, List.nil_append]
      simp [Multiaddr.tryFromGo, readVarint_cons_lt, hrec]
    | tcp hi lo =>
      simp only [Multiaddr.toVec, MultiaddrPart.toVec, encodeVarint_six,
        List.cons_append, List.nil_append]
      simp [Multiaddr.tryFromGo, readVarint_cons_lt, hrec]
    | udp hi lo =>
      simp only [Multiaddr.toVec, MultiaddrPart.toVec, encodeVarint_udp,
        List.cons_append, List.nil_append]
      simp [Multiaddr.tryFromGo, readVarint_udp, hrec]

theorem Multiaddr.tryFrom_toVec (a : Multiaddr) : Multiaddr.tryFrom a.toVec = some a :=
  Multiaddr.tryFromGo_toVec a a.toVec.length a.length_le_toVec_length

/-! ### Address-collection lemmas -/

theorem collectAddrs_map_toVec (l : List Multiaddr) :
    collectAddrs (l.map Multiaddr.toVec) = .ok l := by
  induction l with
  | nil => rfl
  | cons a rest ih => simp [collectAddrs, Multiaddr.tryFrom_toVec, ih]

theorem collectAddrs_error_eq (l : List (List Nat)) (e : DecodeError)
    (h : collectAddrs l = .error e) : e = .InvalidAddress := by
  induction l with
  | nil => simp [collectAddrs] at h
  | cons a rest ih =>
    simp only [collectAddrs] at h
    cases ha : Multiaddr.tryFrom a with
    | none => rw [ha] at h; cases h; rfl
    | some m =>
      rw [ha] at h
      cases hr : collectAddrs rest with
      | error e2 =>
        rw [hr] at h
        cases h
        exact ih hr
      | ok res => rw [hr] at h; cases h

theorem collectAddrs_error_iff (l : List (List Nat)) :
    collectAddrs l = .error .InvalidAddress ↔ ∃ e ∈ l, Multiaddr.tryFrom e = none := by
  induction l with
  | nil => simp [collectAddrs]
  | cons a rest ih =>
    simp only [collectAddrs]
    cases ha : Multiaddr.tryFrom a with
    | none => simp [ha]
    | some m =>
      cases hr : collectAddrs rest with
      | error e2 =>
        have he2 := collectAddrs_error_eq rest e2 hr
        subst he2
        simp only [hr] at ih
        simp [ha, ih]
        exact ih.mp trivial
      | ok res =>
        simp only [hr] at ih
        simp [ha]
        intro x hx hnone
        exact absurd (ih.mpr ⟨x, hx, hnone⟩) (by simp)

theorem collectAddrs_ok_of_all_valid (l : List (List Nat))
    (h : ∀ e ∈ l, Multiaddr.tryFrom e ≠ none) :
    ∃ res, collectAddrs l = .ok res := by
  induction l with
  | nil => exact ⟨[], rfl⟩
  | cons a rest ih =>
    obtain ⟨res, hres⟩ := ih (fun e he => h e (by simp [he]))
    cases ha : Multiaddr.tryFrom a with
    | none => exact absurd ha (h a (by simp))
    | some m => exact ⟨m :: res, by simp [collectAddrs, ha, hres]⟩

theorem collectAddrs_ok_pointwise (l : List (List Nat)) (res : List Multiaddr)
    (h : collectAddrs l = .ok res) :
    res.length = l.length ∧
      ∀ (i : Nat) (h1 : i < l.length) (h2 : i < res.length),
        Multiaddr.tryFrom (l.get ⟨i, h1⟩) = some (res.get ⟨i, h2⟩) := by
  induction l generalizing res with
  | nil =>
    simp only [collectAddrs] at h
    cases h
    simp
  | cons a rest ih =>
    simp only [collectAddrs] at h
    cases ha : Multiaddr.tryFrom a with
    | none => rw [ha] at h; cases h
    | some m =>
      rw [ha] at h
      cases hr : collectAddrs rest with
      | error e2 => rw [hr] at h; cases h
      | ok res2 =>
        rw [hr] at h
        cases h
        obtain ⟨hlen, hpt⟩ := ih res2 hr
        refine ⟨by simp [hlen], ?_⟩
        intro i h1 h2
        cases i with
        | zero => simpa using ha
        | succ j =>
          simp only [List.get_eq_getElem, List.getElem_cons_succ]
          have := hpt j (by simp at h1; omega) (by simp at h2; omega)
          simpa using this

/-! ### Typed-layer round trips -/

theorem Request.into_bytes_eq_make (r : Request) :
    Request.into_bytes r = Request.make_message_bytes r := by
  cases r with
  | dial d => rfl
  | data d =>
    obtain ⟨c⟩ := d
    by_cases hc : c = DATA_FIELD_LEN_UPPER_BOUND
    · simp [Request.into_bytes, hc]
    · simp [Request.into_bytes, hc]

theorem Request_from_bytes_encode_data (c : Nat) (hc : c ≤ DATA_FIELD_LEN_UPPER_BOUND) :
    Request.from_bytes (encodeMessage ⟨.dialDataResponse ⟨some (List.replicate c 0)⟩⟩) =
      .ok (.data ⟨c⟩) := by
  have hlen : (List.replicate c 0).length < 2 ^ 64 := by
    simp only [List.length_replicate]
    have : c ≤ 4096 := hc
    have h64 : (2:Nat) ^ 64 = 18446744073709551616 := by norm_num
    omega
  rw [Request.from_bytes, protoMessageFromBytes_encode_dialDataResponse _ hlen]
  simp

theorem Request_roundtrip_data (c : Nat) (hc : c ≤ DATA_FIELD_LEN_UPPER_BOUND) :
    (Request.into_bytes (.data ⟨c⟩)).map Request.from_bytes = some (.ok (.data ⟨c⟩)) := by
  rw [Request.into_bytes_eq_make]
  simp only [Request.make_message_bytes, hc, if_true, Option.map_some']
  rw [Request_from_bytes_encode_data c hc]

theorem Request_roundtrip_dial (addrs : List Multiaddr) (nonce : Nat)
    (h1 : nonce < 2 ^ 64)
    (h2 : ∀ a ∈ addrs, (Multiaddr.toVec a).length < 2 ^ 64)
    (h3 : (encodeDialRequest ⟨addrs.map Multiaddr.toVec, some nonce⟩).length < 2 ^ 64) :
    (Request.into_bytes (.dial ⟨addrs, nonce⟩)).map Request.from_bytes =
      some (.ok (.dial ⟨addrs, nonce⟩)) := by
  rw [Request.into_bytes_eq_make]
  simp only [Request.make_message_bytes, Option.map_some']
  have hl : ∀ a ∈ addrs.map Multiaddr.toVec, a.length < 128 ^ 10 := by
    intro a ha
    obtain ⟨x, hx, rfl⟩ := List.mem_map.mp ha
    exact lt_trans (h2 x hx) (by norm_num)
  have hb : (encodeDialRequest ⟨addrs.map Multiaddr.toVec, some nonce⟩).length < 128 ^ 10 :=
    lt_trans h3 (by norm_num)
  rw [Request.from_bytes, protoMessageFromBytes_encode_dialRequest _ hl hb]
  simp [collectAddrs_map_toVec, Nat.mod_eq_of_lt h1]
  omega

theorem Response_roundtrip_dial (s : ResponseStatus) (i : Nat) (d : DialStatus) :
    Response.from_bytes (Response.into_bytes (.dial ⟨s, i, d⟩)) =
      .ok (.dial ⟨s, i % 2 ^ 32, d⟩) := by
  show Response.from_bytes
    (encodeMessage ⟨.dialResponse ⟨some s, some (i % 2 ^ 32), some d⟩⟩) = _
  rw [Response.from_bytes, protoMessageFromBytes_encode_dialResponse s (i % 2 ^ 32) d]
  simp [Nat.mod_mod_of_dvd i (dvd_refl (2 ^ 32))]

theorem Response_roundtrip_data (i n : Nat) :
    Response.from_bytes (Response.into_bytes (.data ⟨i, n⟩)) =
      .ok (.data ⟨i % 2 ^ 32, n % 2 ^ 64⟩) := by
  show Response.from_bytes
    (encodeMessage ⟨.dialDataRequest ⟨some (i % 2 ^ 32), some (n % 2 ^ 64)⟩⟩) = _
  rw [Response.from_bytes, protoMessageFromBytes_encode_dialDataRequest (i % 2 ^ 32) (n % 2 ^ 64)]
  simp [Nat.mod_mod_of_dvd i (dvd_refl (2 ^ 32)), Nat.mod_mod_of_dvd n (dvd_refl (2 ^ 64))]

theorem DialBack_roundtrip (n : Nat) :
    DialBack.from_bytes (DialBack.into_bytes ⟨n⟩) = .ok ⟨n % 2 ^ 64⟩ := by
  rw [DialBack.into_bytes, DialBack.from_bytes, readDialBack_encode n]

/-! ### Size computations -/

theorem encodeVarint_4096_length : (encodeVarint 4096).length = 2 := by decide

theorem encodeVarint_4099_length : (encodeVarint 4099).length = 2 := by decide

theorem encodeVarint_4102_length : (encodeVarint 4102).length = 2 := by decide

theorem encodeDialDataResponse_4096_length :
    (encodeDialDataResponse ⟨some (List.replicate 4096 0)⟩).length = 4099 := by
  show (10 :: (encodeVarint (List.replicate 4096 0).length ++ List.replicate 4096 0)).length = 4099
  rw [List.length_cons, List.length_append, List.length_replicate, encodeVarint_4096_length]

theorem encodeMessage_data4096_length :
    (encodeMessage ⟨.dialDataResponse ⟨some (List.replicate 4096 0)⟩⟩).length = 4102 := by
  show (34 :: (encodeVarint (encodeDialDataResponse ⟨some (List.replicate 4096 0)⟩).length ++
    encodeDialDataResponse ⟨some (List.replicate 4096 0)⟩)).length = 4102
  rw [List.length_cons, List.length_append, encodeDialDataResponse_4096_length,
    encodeVarint_4099_length]

/-! ### Claim theorems -/

/-- C2 (counterexample): decoding a zero-length buffer does NOT fail with
`Malformed` for any of the three message kinds.  A standard schema reader
accepts the empty buffer as the default message (every field absent, one-of
unpopulated), so `Request`/`Response` decoding fails with `UnexpectedVariant`
and `DialBack` decoding fails with `MissingField "nonce"`. -/
theorem decode_empty_buffer_not_malformed :
    Request.from_bytes [] = .error .UnexpectedVariant ∧
    Response.from_bytes [] = .error .UnexpectedVariant ∧
    DialBack.from_bytes [] = .error (.MissingField "nonce") ∧
    DecodeError.UnexpectedVariant ≠ .Malformed ∧
    DecodeError.MissingField "nonce" ≠ .Malformed := by
  refine ⟨by decide, by decide, by decide, by decide, ?_⟩
  intro h
  cases h

/-- C2 (amended): decoding a zero-length buffer fails for all three message
kinds, with `UnexpectedVariant` for `Request` and `Response` (the empty
buffer parses to the default message whose one-of is unpopulated) and
`MissingField "nonce"` for `DialBack` — not with `Malformed`. -/
theorem decode_empty_buffer_fails_per_kind :
    Request.from_bytes [] = .error .UnexpectedVariant ∧
    Response.from_bytes [] = .error .UnexpectedVariant ∧
    DialBack.from_bytes [] = .error (.MissingField "nonce") := by
  exact ⟨by decide, by decide, by decide⟩

/-- C4: `DialDataRequest::from_rng` always returns `num_bytes` in the closed
interval `[DATA_LEN_LOWER_BOUND, DATA_LEN_UPPER_BOUND] = [30000, 100000]`
and echoes the given address index, for every address index and every value
drawn from the randomness source. -/
theorem from_rng_num_bytes_in_bounds (addr_idx r : Nat) :
    DATA_LEN_LOWER_BOUND ≤ (DialDataRequest.from_rng addr_idx r).num_bytes ∧
    (DialDataRequest.from_rng addr_idx r).num_bytes ≤ DATA_LEN_UPPER_BOUND ∧
    (DialDataRequest.from_rng addr_idx r).addr_idx = addr_idx := by
  simp only [DialDataRequest.from_rng, gen_range, DATA_LEN_LOWER_BOUND, DATA_LEN_UPPER_BOUND]
  refine ⟨by omega, by omega, trivial⟩

/-- C9: the `serialize_into_vec` encoding of a `Message` carrying a
`DialDataResponse` with exactly 4096 data bytes is exactly
`REQUEST_MAX_SIZE = 4104` bytes (as the source's `message_correct_max_size`
test asserts), and the encoding of a `DialBack` with the maximal `u64` nonce
is at most `DIAL_BACK_MAX_SIZE = 10` bytes (as `dial_back_correct_size`
asserts). -/
theorem max_encoded_frame_sizes :
    (serializeMessageIntoVec ⟨.dialDataResponse ⟨some (List.replicate 4096 0)⟩⟩).length =
      REQUEST_MAX_SIZE ∧
    (serializeDialBackIntoVec ⟨some (2 ^ 64 - 1)⟩).length ≤ DIAL_BACK_MAX_SIZE := by
  constructor
  · rw [serializeMessageIntoVec, List.length_append, encodeMessage_data4096_length,
      encodeVarint_4102_length]
    rfl
  · decide

/-- C10: encoding a `Response` narrows `addr_idx` through the `as u32` cast,
so decode-of-encode yields `addr_idx % 2 ^ 32` for both variants (and the
`u64`-carried `num_bytes` unchanged); for `addr_idx ≥ 2 ^ 32` the decoded
index therefore differs from the original. -/
theorem addr_idx_u32_narrowing :
    (∀ (s : ResponseStatus) (i : Nat) (d : DialStatus),
      Response.from_bytes (Response.into_bytes (.dial ⟨s, i, d⟩)) =
        .ok (.dial ⟨s, i % 2 ^ 32, d⟩)) ∧
    (∀ i n : Nat, n < 2 ^ 64 →
      Response.from_bytes (Response.into_bytes (.data ⟨i, n⟩)) =
        .ok (.data ⟨i % 2 ^ 32, n⟩)) ∧
    (∀ i : Nat, 2 ^ 32 ≤ i → i % 2 ^ 32 ≠ i) := by
  refine ⟨Response_roundtrip_dial, ?_, ?_⟩
  · intro i n hn
    rw [Response_roundtrip_data, Nat.mod_eq_of_lt hn]
  · intro i hi h
    have := Nat.mod_lt i (show 0 < 2 ^ 32 by norm_num)
    omega

/-- C10 witness: at `addr_idx = 2 ^ 32` the dial-variant round trip lands on
`0`, the data-variant round trip keeps `num_bytes = 5`, and the narrowing is
strict. -/
theorem addr_idx_u32_narrowing_witness :
    Response.from_bytes (Response.into_bytes (.dial ⟨.OK, 2 ^ 32, .OK⟩)) =
      .ok (.dial ⟨.OK, 2 ^ 32 % 2 ^ 32, .OK⟩) ∧
    Response.from_bytes (Response.into_bytes (.data ⟨2 ^ 32, 5⟩)) =
      .ok (.data ⟨2 ^ 32 % 2 ^ 32, 5⟩) ∧
    2 ^ 32 % 2 ^ 32 ≠ 2 ^ 32 :=
  ⟨addr_idx_u32_narrowing.1 .OK (2 ^ 32) .OK,
   addr_idx_u32_narrowing.2.1 (2 ^ 32) 5 (by decide),
   addr_idx_u32_narrowing.2.2 (2 ^ 32) (by decide)⟩

/-- Reachable states of the `OnceLock` padding cache: either still empty, or
initialized — and the only value any initializer can store is the
serialization of the `Data` request with the full 4096-byte blob, since the
cached branch is only reachable for that value. -/
def CacheConsistent (c : Option (List Nat)) : Prop :=
  c = none ∨ c = Request.make_message_bytes (.data ⟨DATA_FIELD_LEN_UPPER_BOUND⟩)

/-- C5: under any reachable cache state, the cached `into_bytes` returns
exactly the bytes of the uncached `make_message_bytes` on the same logical
value (so every call within a process is byte-identical, and byte-identical
to an uncached encoding), and leaves the cache in a reachable state. -/
theorem into_bytes_cache_unobservable (r : Request) (c : Option (List Nat))
    (h : CacheConsistent c) :
    (Request.into_bytes_cached r c).1 = Request.make_message_bytes r ∧
    (Request.into_bytes_cached r c).1 = Request.into_bytes r ∧
    CacheConsistent (Request.into_bytes_cached r c).2 := by
  cases r with
  | dial d =>
    exact ⟨rfl, rfl, h⟩
  | data d =>
    obtain ⟨n⟩ := d
    by_cases hn : n = DATA_FIELD_LEN_UPPER_BOUND
    · subst hn
      rcases h with rfl | hc
      · refine ⟨rfl, ?_, ?_⟩
        · rw [Request.into_bytes_eq_make]
          rfl
        · right
          rfl
      · subst hc
        have hmk : Request.make_message_bytes (.data ⟨DATA_FIELD_LEN_UPPER_BOUND⟩) =
            some (encodeMessage ⟨.dialDataResponse
              ⟨some (List.replicate DATA_FIELD_LEN_UPPER_BOUND 0)⟩⟩) := by
          simp [Request.make_message_bytes]
        rw [Request.into_bytes_eq_make]
        refine ⟨?_, ?_, ?_⟩ <;>
          simp [Request.into_bytes_cached, hmk, CacheConsistent]
    · rw [Request.into_bytes_eq_make]
      refine ⟨?_, ?_, ?_⟩ <;> simp [Request.into_bytes_cached, hn, h]

/-- C5 witness: starting from the empty cache, encoding the full-size `Data`
request returns the uncached serialization and leaves the cache consistent. -/
theorem into_bytes_cache_unobservable_witness :
    (Request.into_bytes_cached (.data ⟨4096⟩) none).1 =
      Request.make_message_bytes (.data ⟨4096⟩) ∧
    (Request.into_bytes_cached (.data ⟨4096⟩) none).1 =
      Request.into_bytes (.data ⟨4096⟩) ∧
    CacheConsistent (Request.into_bytes_cached (.data ⟨4096⟩) none).2 :=
  into_bytes_cache_unobservable (.data ⟨4096⟩) none (Or.inl rfl)

/-- C6: for every `data_count ≤ 4096`, the emitted byte blob of a `Data`
request is exactly `data_count` zero bytes, and encode-then-decode preserves
`data_count`; conversely decoding any wire message whose populated variant is
a `dialDataResponse` carrying a blob of length L yields `data_count = L`,
regardless of the blob's contents. -/
theorem data_count_encode_decode :
    (∀ c : Nat, c ≤ DATA_FIELD_LEN_UPPER_BOUND →
      Request.into_bytes (.data ⟨c⟩) =
        some (encodeMessage ⟨.dialDataResponse ⟨some (List.replicate c 0)⟩⟩) ∧
      (Request.into_bytes (.data ⟨c⟩)).map Request.from_bytes =
        some (.ok (.data ⟨c⟩))) ∧
    (∀ bs blob : List Nat,
      protoMessageFromBytes bs = .ok ⟨.dialDataResponse ⟨some blob⟩⟩ →
      Request.from_bytes bs = .ok (.data ⟨blob.length⟩)) := by
  constructor
  · intro c hc
    refine ⟨?_, Request_roundtrip_data c hc⟩
    rw [Request.into_bytes_eq_make]
    simp [Request.make_message_bytes, hc]
  · intro bs blob h
    rw [Request.from_bytes, h]

/-- C6 witness: `data_count = 5` round-trips, and a wire blob `[7, 8]` with
non-zero contents decodes to `data_count = 2`. -/
theorem data_count_encode_decode_witness :
    (Request.into_bytes (.data ⟨5⟩) =
      some (encodeMessage ⟨.dialDataResponse ⟨some (List.replicate 5 0)⟩⟩) ∧
    (Request.into_bytes (.data ⟨5⟩)).map Request.from_bytes =
      some (.ok (.data ⟨5⟩))) ∧
    Request.from_bytes (encodeMessage ⟨.dialDataResponse ⟨some [7, 8]⟩⟩) =
      .ok (.data ⟨([7, 8] : List Nat).length⟩) :=
  ⟨data_count_encode_decode.1 5 (by decide),
   data_count_encode_decode.2 (encodeMessage ⟨.dialDataResponse ⟨some [7, 8]⟩⟩) [7, 8]
     (by decide)⟩

/-- C3 (counterexample): the unrestricted round-trip claim fails.  A
`Response::Dial` with `addr_idx = 2 ^ 32` (a perfectly valid `usize` on a
64-bit platform) decodes back with `addr_idx = 0` after the `as u32`
narrowing, which differs from the original value. -/
theorem roundtrip_fails_at_addr_idx_two_pow_32 :
    Response.from_bytes (Response.into_bytes (.dial ⟨.OK, 2 ^ 32, .OK⟩)) =
      .ok (.dial ⟨.OK, 0, .OK⟩) ∧
    Response.dial ⟨.OK, 0, .OK⟩ ≠ .dial ⟨.OK, 2 ^ 32, .OK⟩ := by
  constructor
  · decide
  · intro h
    cases h

/-- C3 (amended): decode-of-encode is the identity on all values the Rust
types can hold once the one unstated restriction is added: a `Response`
`addr_idx` below `2 ^ 32` (the `as u32` narrowing, see C10).  The size
hypotheses (`nonce`, `num_bytes` and wire lengths below `2 ^ 64`) delimit
exactly the values representable by the source's `u64`/`usize` fields. -/
theorem roundtrip_encode_decode_amended :
    (∀ (addrs : List Multiaddr) (nonce : Nat), nonce < 2 ^ 64 →
      (∀ a ∈ addrs, (Multiaddr.toVec a).length < 2 ^ 64) →
      (encodeDialRequest ⟨addrs.map Multiaddr.toVec, some nonce⟩).length < 2 ^ 64 →
      (Request.into_bytes (.dial ⟨addrs, nonce⟩)).map Request.from_bytes =
        some (.ok (.dial ⟨addrs, nonce⟩))) ∧
    (∀ c : Nat, c ≤ DATA_FIELD_LEN_UPPER_BOUND →
      (Request.into_bytes (.data ⟨c⟩)).map Request.from_bytes =
        some (.ok (.data ⟨c⟩))) ∧
    (∀ (s : ResponseStatus) (i : Nat) (d : DialStatus), i < 2 ^ 32 →
      Response.from_bytes (Response.into_bytes (.dial ⟨s, i, d⟩)) =
        .ok (.dial ⟨s, i, d⟩)) ∧
    (∀ i n : Nat, i < 2 ^ 32 → n < 2 ^ 64 →
      Response.from_bytes (Response.into_bytes (.data ⟨i, n⟩)) =
        .ok (.data ⟨i, n⟩)) ∧
    (∀ nonce : Nat, nonce < 2 ^ 64 →
      DialBack.from_bytes (DialBack.into_bytes ⟨nonce⟩) = .ok ⟨nonce⟩) := by
  refine ⟨Request_roundtrip_dial, Request_roundtrip_data, ?_, ?_, ?_⟩
  · intro s i d hi
    rw [Response_roundtrip_dial, Nat.mod_eq_of_lt hi]
  · intro i n hi hn
    rw [Response_roundtrip_data, Nat.mod_eq_of_lt hi, Nat.mod_eq_of_lt hn]
  · intro nonce hn
    rw [DialBack_roundtrip, Nat.mod_eq_of_lt hn]

/-- C3 witness: the amended round trip at concrete values of all five shapes,
including a dial request carrying a structured ip4/tcp address. -/
theorem roundtrip_encode_decode_amended_witness :
    (Request.into_bytes (.dial ⟨[[.ip4 198 51 100 1, .tcp 16 146]], 42⟩)).map
        Request.from_bytes =
      some (.ok (.dial ⟨[[.ip4 198 51 100 1, .tcp 16 146]], 42⟩)) ∧
    (Request.into_bytes (.data ⟨4096⟩)).map Request.from_bytes =
      some (.ok (.data ⟨4096⟩)) ∧
    Response.from_bytes (Response.into_bytes (.dial ⟨.OK, 0, .OK⟩)) =
      .ok (.dial ⟨.OK, 0, .OK⟩) ∧
    Response.from_bytes (Response.into_bytes (.data ⟨0, 65536⟩)) =
      .ok (.data ⟨0, 65536⟩) ∧
    DialBack.from_bytes (DialBack.into_bytes ⟨42⟩) = .ok ⟨42⟩ :=
  ⟨roundtrip_encode_decode_amended.1 [[.ip4 198 51 100 1, .tcp 16 146]] 42 (by decide)
      (by decide) (by decide),
   roundtrip_encode_decode_amended.2.1 4096 (by decide),
   roundtrip_encode_decode_amended.2.2.1 .OK 0 .OK (by decide),
   roundtrip_encode_decode_amended.2.2.2.1 0 65536 (by decide) (by decide),
   roundtrip_encode_decode_amended.2.2.2.2 42 (by decide)⟩

/-- C7: for every wire message whose populated one-of variant is a
`dialRequest`, decoding fails with `InvalidAddress` if and only if some raw
address entry is not a syntactically valid multiaddress; and when every entry
parses and the nonce is present, decoding succeeds with the address list in
wire order (entry `i` of the wire list parses to entry `i` of the decoded
list). -/
theorem invalid_address_iff_bad_entry :
    ∀ (bs : List Nat) (m : ProtoDialRequest),
      protoMessageFromBytes bs = .ok ⟨.dialRequest m⟩ →
      ((Request.from_bytes bs = .error .InvalidAddress ↔
        ∃ e ∈ m.addrs, Multiaddr.tryFrom e = none) ∧
       (∀ (res : List Multiaddr) (nonce : Nat),
         collectAddrs m.addrs = .ok res → m.nonce = some nonce →
         Request.from_bytes bs = .ok (.dial ⟨res, nonce⟩) ∧
         res.length = m.addrs.length ∧
         ∀ (i : Nat) (h1 : i < m.addrs.length) (h2 : i < res.length),
           Multiaddr.tryFrom (m.addrs.get ⟨i, h1⟩) = some (res.get ⟨i, h2⟩))) := by
  intro bs m h
  obtain ⟨maddrs, mnonce⟩ := m
  constructor
  · simp only [Request.from_bytes, h]
    cases hc : collectAddrs maddrs with
    | error e =>
      have he := collectAddrs_error_eq maddrs e hc
      subst he
      simpa using (collectAddrs_error_iff maddrs).mp hc
    | ok res =>
      constructor
      · intro hcontra
        cases mnonce with
        | some n => exact absurd hcontra (by simp)
        | none => exact absurd hcontra (by simp)
      · intro hex
        have hbad := (collectAddrs_error_iff maddrs).mpr hex
        rw [hc] at hbad
        exact absurd hbad (by simp)
  · intro res nonce hres hnonce
    simp only at hres hnonce
    refine ⟨?_, (collectAddrs_ok_pointwise maddrs res hres).1,
      (collectAddrs_ok_pointwise maddrs res hres).2⟩
    simp only [Request.from_bytes, h, hres, hnonce]

/-- C7 witness: the truncated-varint entry `[255]` makes decoding fail with
`InvalidAddress`, and a well-formed single-entry request decodes with the
entry parsed in place. -/
theorem invalid_address_iff_bad_entry_witness :
    ((Request.from_bytes [10, 3, 10, 1, 255] = .error .InvalidAddress ↔
      ∃ e ∈ [[255]], Multiaddr.tryFrom e = none) ∧
     (∀ (res : List Multiaddr) (nonce : Nat),
       collectAddrs [[255]] = .ok res → (none : Option Nat) = some nonce →
       Request.from_bytes [10, 3, 10, 1, 255] = .ok (.dial ⟨res, nonce⟩) ∧
       res.length = ([[255]] : List (List Nat)).length ∧
       ∀ (i : Nat) (h1 : i < ([[255]] : List (List Nat)).length) (h2 : i < res.length),
         Multiaddr.tryFrom (([[255]] : List (List Nat)).get ⟨i, h1⟩) =
           some (res.get ⟨i, h2⟩))) :=
  invalid_address_iff_bad_entry [10, 3, 10, 1, 255] ⟨[[255]], none⟩ (by decide)

/-- C8 (counterexample): the MissingField guarantee as universally stated
fails on a `dialRequest` whose nonce is absent AND whose address list has an
invalid entry: address validation runs before the nonce presence check, so
decoding reports `InvalidAddress`, not `MissingField "nonce"`. -/
theorem invalid_address_masks_missing_nonce :
    protoMessageFromBytes [10, 3, 10, 1, 255] = .ok ⟨.dialRequest ⟨[[255]], none⟩⟩ ∧
    Request.from_bytes [10, 3, 10, 1, 255] = .error .InvalidAddress ∧
    DecodeError.InvalidAddress ≠ .MissingField "nonce" := by
  refine ⟨by decide, by decide, ?_⟩
  intro h
  cases h

/-- C8 (amended): on structurally valid wire messages, a required field that
is absent makes decoding fail with `MissingField` naming that field — with
the one proviso the counterexample forces: on `dialRequest` the address
entries are validated first, so `MissingField "nonce"` is guaranteed only
when every entry parses.  A populated one-of variant that is not among the
two expected for the message kind (or an unpopulated one-of) fails with
`UnexpectedVariant`. -/
theorem missing_field_and_unexpected_variant :
    (∀ (bs : List Nat) (m : ProtoDialRequest),
      protoMessageFromBytes bs = .ok ⟨.dialRequest m⟩ → m.nonce = none →
      (∀ e ∈ m.addrs, Multiaddr.tryFrom e ≠ none) →
      Request.from_bytes bs = .error (.MissingField "nonce")) ∧
    (∀ bs : List Nat,
      protoMessageFromBytes bs = .ok ⟨.dialDataResponse ⟨none⟩⟩ →
      Request.from_bytes bs = .error (.MissingField "data")) ∧
    (∀ (bs : List Nat) (m : ProtoDialResponse),
      protoMessageFromBytes bs = .ok ⟨.dialResponse m⟩ → m.status = none →
      Response.from_bytes bs = .error (.MissingField "status")) ∧
    (∀ (bs : List Nat) (m : ProtoDialResponse) (s : ResponseStatus),
      protoMessageFromBytes bs = .ok ⟨.dialResponse m⟩ → m.status = some s →
      m.addrIdx = none →
      Response.from_bytes bs = .error (.MissingField "addrIdx")) ∧
    (∀ (bs : List Nat) (m : ProtoDialResponse) (s : ResponseStatus) (i : Nat),
      protoMessageFromBytes bs = .ok ⟨.dialResponse m⟩ → m.status = some s →
      m.addrIdx = some i → m.dialStatus = none →
      Response.from_bytes bs = .error (.MissingField "dialStatus")) ∧
    (∀ (bs : List Nat) (m : ProtoDialDataRequest),
      protoMessageFromBytes bs = .ok ⟨.dialDataRequest m⟩ → m.addrIdx = none →
      Response.from_bytes bs = .error (.MissingField "addrIdx")) ∧
    (∀ (bs : List Nat) (m : ProtoDialDataRequest) (i : Nat),
      protoMessageFromBytes bs = .ok ⟨.dialDataRequest m⟩ → m.addrIdx = some i →
      m.numBytes = none →
      Response.from_bytes bs = .error (.MissingField "numBytes")) ∧
    (∀ bs : List Nat,
      protoDialBackFromBytes bs = .ok ⟨none⟩ →
      DialBack.from_bytes bs = .error (.MissingField "nonce")) ∧
    (∀ (bs : List Nat) (m : ProtoMessage),
      protoMessageFromBytes bs = .ok m →
      (match m.msg with
       | .dialRequest _ => False
       | .dialDataResponse _ => False
       | _ => True) →
      Request.from_bytes bs = .error .UnexpectedVariant) ∧
    (∀ (bs : List Nat) (m : ProtoMessage),
      protoMessageFromBytes bs = .ok m →
      (match m.msg with
       | .dialResponse _ => False
       | .dialDataRequest _ => False
       | _ => True) →
      Response.from_bytes bs = .error .UnexpectedVariant) := by
  refine ⟨?_, ?_, ?_, ?_, ?_, ?_, ?_, ?_, ?_, ?_⟩
  · intro bs m h hn hv
    obtain ⟨maddrs, mnonce⟩ := m
    simp only at hn hv
    subst hn
    obtain ⟨res, hres⟩ := collectAddrs_ok_of_all_valid maddrs hv
    simp only [Request.from_bytes, h, hres]
  · intro bs h
    simp only [Request.from_bytes, h]
  · intro bs m h hs
    obtain ⟨ms, mi, md⟩ := m
    simp only at hs
    subst hs
    simp only [Response.from_bytes, h]
  · intro bs m s h hs hi
    obtain ⟨ms, mi, md⟩ := m
    simp only at hs hi
    subst hs
    subst hi
    simp only [Response.from_bytes, h]
  · intro bs m s i h hs hi hd
    obtain ⟨ms, mi, md⟩ := m
    simp only at hs hi hd
    subst hs
    subst hi
    subst hd
    simp only [Response.from_bytes, h]
  · intro bs m h hi
    obtain ⟨mi, mn⟩ := m
    simp only at hi
    subst hi
    simp only [Response.from_bytes, h]
  · intro bs m i h hi hn
    obtain ⟨mi, mn⟩ := m
    simp only at hi hn
    subst hi
    subst hn
    simp only [Response.from_bytes, h]
  · intro bs h
    simp only [DialBack.from_bytes, h]
  · intro bs m h hcond
    obtain ⟨mm⟩ := m
    cases mm with
    | dialRequest d => exact hcond.elim
    | dialDataResponse d => exact hcond.elim
    | dialResponse d => simp only [Request.from_bytes, h]
    | dialDataRequest d => simp only [Request.from_bytes, h]
    | noneMsg => simp only [Request.from_bytes, h]
  · intro bs m h hcond
    obtain ⟨mm⟩ := m
    cases mm with
    | dialResponse d => exact hcond.elim
    | dialDataRequest d => exact hcond.elim
    | dialRequest d => simp only [Response.from_bytes, h]
    | dialDataResponse d => simp only [Response.from_bytes, h]
    | noneMsg => simp only [Response.from_bytes, h]

/-- C8 witness: each guarantee exercised on a concrete structurally valid
wire message — a nonce-less dial request with one valid address, field-less
or partially populated responses, the empty dial-back, and wrong-variant
messages for both decoders. -/
theorem missing_field_and_unexpected_variant_witness :
    Request.from_bytes [10, 7, 10, 5, 4, 1, 2, 3, 4] = .error (.MissingField "nonce") ∧
    Request.from_bytes [34, 0] = .error (.MissingField "data") ∧
    Response.from_bytes [18, 0] = .error (.MissingField "status") ∧
    Response.from_bytes [18, 3, 8, 200, 1] = .error (.MissingField "addrIdx") ∧
    Response.from_bytes [18, 5, 8, 200, 1, 16, 3] = .error (.MissingField "dialStatus") ∧
    Response.from_bytes [26, 0] = .error (.MissingField "addrIdx") ∧
    Response.from_bytes [26, 2, 8, 5] = .error (.MissingField "numBytes") ∧
    DialBack.from_bytes [] = .error (.MissingField "nonce") ∧
    Request.from_bytes [18, 0] = .error .UnexpectedVariant ∧
    Response.from_bytes [10, 0] = .error .UnexpectedVariant :=
  ⟨missing_field_and_unexpected_variant.1 _ ⟨[[4, 1, 2, 3, 4]], none⟩ (by decide) (by decide)
      (by decide),
   missing_field_and_unexpected_variant.2.1 [34, 0] (by decide),
   missing_field_and_unexpected_variant.2.2.1 _ ⟨none, none, none⟩ (by decide) (by decide),
   missing_field_and_unexpected_variant.2.2.2.1 _ ⟨some .OK, none, none⟩ .OK (by decide)
      (by decide) (by decide),
   missing_field_and_unexpected_variant.2.2.2.2.1 _ ⟨some .OK, some 3, none⟩ .OK 3 (by decide)
      (by decide) (by decide) (by decide),
   missing_field_and_unexpected_variant.2.2.2.2.2.1 _ ⟨none, none⟩ (by decide) (by decide),
   missing_field_and_unexpected_variant.2.2.2.2.2.2.1 _ ⟨some 5, none⟩ 5 (by decide)
      (by decide) (by decide),
   missing_field_and_unexpected_variant.2.2.2.2.2.2.2.1 [] (by decide),
   missing_field_and_unexpected_variant.2.2.2.2.2.2.2.2.1 _ ⟨.dialResponse ⟨none, none, none⟩⟩
      (by decide) (by trivial),
   missing_field_and_unexpected_variant.2.2.2.2.2.2.2.2.2 _ ⟨.dialRequest ⟨[], none⟩⟩
      (by decide) (by trivial)⟩

/-- Reading back a written frame: the framed reader either rejects the frame
as over-long or returns exactly the body that was written. -/
theorem read_length_prefixed_encode (maxSize : Nat) (body : List Nat)
    (h : body.length < 128 ^ 10) :
    read_length_prefixed maxSize (write_length_prefixed body) =
      if maxSize < body.length then .error .frameTooLarge else .ok body := by
  rw [read_length_prefixed, write_length_prefixed,
    readVarintGo_encodeVarint body.length body h]
  by_cases hm : maxSize < body.length
  · simp [hm]
  · simp [hm, List.take_of_length_le]

/-- C1 (code bug): the largest legal `Request` frame body — the `Data`
request with `data_count = 4096`, whose encoded body is 4102 bytes (4104
with its length prefix) — is rejected by `read_from`, because the
`read_from!` macro hard-codes a per-call maximum of 1024 bytes instead of
using `REQUEST_MAX_SIZE`.  With the `REQUEST_MAX_SIZE` bound the very same
frame is read and decodes back to the original value. -/
theorem read_from_rejects_max_size_data_frame :
    Request.into_bytes (.data ⟨4096⟩) =
      some (encodeMessage ⟨.dialDataResponse ⟨some (List.replicate 4096 0)⟩⟩) ∧
    (encodeMessage ⟨.dialDataResponse ⟨some (List.replicate 4096 0)⟩⟩).length = 4102 ∧
    Request.read_from (write_length_prefixed
        (encodeMessage ⟨.dialDataResponse ⟨some (List.replicate 4096 0)⟩⟩)) =
      .error .frameTooLarge ∧
    read_length_prefixed REQUEST_MAX_SIZE (write_length_prefixed
        (encodeMessage ⟨.dialDataResponse ⟨some (List.replicate 4096 0)⟩⟩)) =
      .ok (encodeMessage ⟨.dialDataResponse ⟨some (List.replicate 4096 0)⟩⟩) ∧
    Request.from_bytes (encodeMessage ⟨.dialDataResponse ⟨some (List.replicate 4096 0)⟩⟩) =
      .ok (.data ⟨4096⟩) := by
  have hlen := encodeMessage_data4096_length
  have hsmall : (encodeMessage ⟨.dialDataResponse
      ⟨some (List.replicate 4096 0)⟩⟩).length < 128 ^ 10 := by
    rw [hlen]
    norm_num
  have hrl : read_length_prefixed 1024 (write_length_prefixed
      (encodeMessage ⟨.dialDataResponse ⟨some (List.replicate 4096 0)⟩⟩)) =
      .error .frameTooLarge := by
    rw [read_length_prefixed_encode 1024 _ hsmall, hlen]
    rw [if_pos (by norm_num : (1024 : Nat) < 4102)]
  refine ⟨rfl, hlen, ?_, ?_, Request_from_bytes_encode_data 4096 (by decide)⟩
  · rw [Request.read_from, hrl]
  · rw [read_length_prefixed_encode REQUEST_MAX_SIZE _ hsmall, hlen, REQUEST_MAX_SIZE]
    rw [if_neg (by norm_num : ¬ ((4104 : Nat) < 4102))]

/-- C4 witness: a concrete draw lands in the interval and echoes the index. -/
theorem from_rng_num_bytes_in_bounds_witness :
    DATA_LEN_LOWER_BOUND ≤ (DialDataRequest.from_rng 0 123456).num_bytes ∧
    (DialDataRequest.from_rng 0 123456).num_bytes ≤ DATA_LEN_UPPER_BOUND ∧
    (DialDataRequest.from_rng 0 123456).addr_idx = 0 :=
  from_rng_num_bytes_in_bounds 0 123456

end AutonatV2
